import Mathlib

/-!
Router and thread pool of the multithreaded HTTP server.

A shallow embedding of `src/RESTserver/RESTserver.cpp` (the request router) and
`src/ThreadPool/ThreadPool.cpp` (the worker pool), with the properties of the
specification stated and settled over it.

Conventions of the embedding:

* a `std::string` is the list of its bytes (`CString`), each byte a natural number
  below 256;
* a `handler` (a C function pointer) is `NULL`, the file-local `builtInHandler`,
  or some other function identified by its address;
* `std::map<std::string, handlerInfo>` is the partial function from keys to values;
* a map iterator is represented by the key of the node it points to;
* a C++ exception is an `Except.error`.
-/

namespace RESTserver

/-! ## Data model (RESTserver.hpp) -/

/-- A `std::string`, as the list of its bytes. -/
abbrev CString := List Nat

/-- The bytes of an ASCII literal. -/
def cstr (s : String) : CString := s.toList.map Char.toNat

/-- `typedef void (*handler)(...)`: a function pointer. -/
inductive handler where
  | NULL : handler
  | builtInHandler : handler
  | fn (addr : Nat) : handler
  deriving DecidableEq, Repr

/-- `struct _handlerInfo`. -/
structure handlerInfo where
  method : CString
  eventHandler : handler
  deriving DecidableEq, Repr

/-- `std::pair<std::map<...>::iterator, bool>`: the iterator is represented by the key
of the node it designates. -/
structure handler_identifier where
  first : CString
  second : Bool
  deriving DecidableEq, Repr

/-- The data members of `class RESTserver`. -/
structure State where
  router : CString → Option handlerInfo
  defaultHandler : handlerInfo
  wrongMethodHandler : handlerInfo
  pollHandler : handlerInfo
  stopping : Bool

/-- A freshly constructed server: the default member initialisers of the class. -/
def State.fresh : State where
  router := fun _ => none
  defaultHandler := ⟨[], handler.NULL⟩
  wrongMethodHandler := ⟨[], handler.NULL⟩
  pollHandler := ⟨[], handler.NULL⟩
  stopping := false

/-- Exceptions the standard library raises in the modelled code. -/
inductive Exception where
  | out_of_range : Exception
  deriving DecidableEq, Repr

deriving instance DecidableEq for Except

/-! ## Operations (RESTserver.cpp) -/

/-- One iteration of the loop body of `ucase`: `target[i] &= ~32` on a byte
(`~32` truncated to eight bits is `0xDF = 223`). -/
def ucaseChar (c : Nat) : Nat := c &&& 223

/-- `ucase`: the loop applies `ucaseChar` at every index. -/
def ucase (target : CString) : CString := target.map ucaseChar

/-- `std::map::insert`: the pair is inserted only when the key is absent. The result is
the key the returned iterator designates, whether the insertion took place, and the map. -/
def map_insert (m : CString → Option handlerInfo) (key : CString) (value : handlerInfo) :
    handler_identifier × (CString → Option handlerInfo) :=
  match m key with
  | some _ => (⟨key, false⟩, m)
  | none => (⟨key, true⟩, fun k => if k = key then some value else m k)

/-- `std::map::erase(iterator)`: removes the node the iterator designates. Erasing through
an iterator that designates no node is undefined behaviour (`none`). -/
def map_erase (m : CString → Option handlerInfo) (it : CString) :
    Option (CString → Option handlerInfo) :=
  match m it with
  | some _ => some (fun k => if k = it then none else m k)
  | none => none

/-- `RESTserver::addHandler`. -/
def addHandler (s : State) (method path : CString) (eventHandler : handler) :
    handler_identifier × State :=
  let info : handlerInfo := { method := ucase method, eventHandler := eventHandler }
  let r := map_insert s.router path info
  (r.1, { s with router := r.2 })

/-- `RESTserver::removeHandler`. -/
def removeHandler (s : State) (identifier : handler_identifier) : Option State :=
  match map_erase s.router identifier.first with
  | some r => some { s with router := r }
  | none => none

/-- `RESTserver::setDefaultHandler`. -/
def setDefaultHandler (s : State) (eventHandler : handler) : State :=
  { s with defaultHandler := ⟨[], eventHandler⟩ }

/-- `RESTserver::removeDefaultHandler`. -/
def removeDefaultHandler (s : State) : State :=
  { s with defaultHandler := ⟨[], handler.NULL⟩ }

/-- `RESTserver::setPollHandler`. -/
def setPollHandler (s : State) (pollHandler : handler) : State :=
  { s with pollHandler := ⟨[], pollHandler⟩ }

/-- `RESTserver::removePollHandler`. -/
def removePollHandler (s : State) : State :=
  { s with pollHandler := ⟨[], handler.NULL⟩ }

/-- `RESTserver::setWrongMethodHandler`. -/
def setWrongMethodHandler (s : State) (eventHandler : handler) : State :=
  { s with wrongMethodHandler := ⟨[], eventHandler⟩ }

/-- `RESTserver::removeWrongMethodHandler`. -/
def removeWrongMethodHandler (s : State) : State :=
  { s with wrongMethodHandler := ⟨[], handler.NULL⟩ }

/-- `std::string::at`: bounds-checked access, throwing `std::out_of_range`. -/
def string_at (s : CString) (pos : Nat) : Except Exception Nat :=
  match s[pos]? with
  | some c => Except.ok c
  | none => Except.error Exception.out_of_range

/-- `RESTserver::matchHandler`. The left operand of `||` is evaluated first, so the
bounds-checked `at(0)` runs for every path found in the router. -/
def matchHandler (s : State) (method path : CString) : Except Exception handler :=
  match s.router path with
  | some info =>
    match string_at info.method 0 with
    | Except.error e => Except.error e
    | Except.ok c =>
      if c = 0 ∨ ucase method = info.method then
        Except.ok info.eventHandler
      else if s.wrongMethodHandler.eventHandler ≠ handler.NULL then
        Except.ok s.wrongMethodHandler.eventHandler
      else
        Except.ok handler.builtInHandler
  | none =>
    if s.defaultHandler.eventHandler ≠ handler.NULL then
      Except.ok s.defaultHandler.eventHandler
    else
      Except.ok handler.builtInHandler

/-- The text `builtInHandler` writes to the connection with `mg_printf`. -/
def builtInHandler_reply : String :=
  "HTTP/1.1 404\r\nContent-Length: 9\r\n\r\nNot found"

/-- Calling a handler, as `httpRequestDispatch` does with the result of `matchHandler`:
what is written to the connection. `user` gives the behaviour of the functions supplied by
the application; calling the null pointer has no defined result. -/
def callHandler (user : Nat → String) : handler → Option String
  | handler.NULL => none
  | handler.builtInHandler => some builtInHandler_reply
  | handler.fn addr => some (user addr)

/-- The `MG_EV_HTTP_MSG` branch of `httpRequestDispatch`: the handler found by
`matchHandler` is called; the result is what is written to the connection. -/
def httpRequestDispatch (user : Nat → String) (s : State) (method uri : CString) :
    Except Exception (Option String) :=
  match matchHandler s method uri with
  | Except.ok h => Except.ok (callHandler user h)
  | Except.error e => Except.error e

/-- The status code of a reply: the three characters after `HTTP/1.1 `. -/
def statusOf (reply : String) : List Char := (reply.toList.drop 9).take 3

/-! ## Notions of the specification -/

/-- ASCII lower-casing of one byte: only `A`..`Z` change. -/
def toLowerAscii (c : Nat) : Nat := if 65 ≤ c ∧ c ≤ 90 then c + 32 else c

/-- Two strings are equal up to ASCII letter case. -/
def eqIgnoreAsciiCase (a b : CString) : Bool :=
  decide (a.map toLowerAscii = b.map toLowerAscii)

end RESTserver

namespace ThreadPool

/-! ## Data model (ThreadPool.hpp) -/

/-- `class job`: `func` is a `std::function<void (void *)>`, empty (`none`) or holding a
callable identified by a number; `args` is the opaque pointer passed to it. -/
structure job where
  func : Option Nat
  args : Nat
  deriving DecidableEq, Repr

/-- The data members of `class ThreadPool` other than the mutex and the condition variables.
The front of `jobQueue` is the head of the list; `push` appends at the tail. The `size_t`
counters are natural numbers: they count threads and never wrap. -/
structure State where
  jobQueue : List job
  stop : Bool
  workingCount : Nat
  threadCount : Nat
  maxJobCount : Nat
  deriving DecidableEq, Repr

/-- One invocation `currentJob.func(currentJob.args)`: the callable and its argument. -/
abbrev Call := Nat × Nat

/-- The statement `if (currentJob.func) { currentJob.func(currentJob.args); }`, which is how
both `shutdown` and `worker` execute a job: the invocations it performs. A callable is an
opaque action that returns and does not itself touch the pool. -/
def runJob (currentJob : job) : List Call :=
  match currentJob.func with
  | some f => [(f, currentJob.args)]
  | none => []

/-- What `shutdown` does, in program order. -/
inductive Event where
  | lock : Event
  | run (currentJob : job) : Event
  | pop : Event
  | setStop : Event
  | notify_all : Event
  | unlock : Event
  deriving DecidableEq, Repr

/-! ## Operations (ThreadPool.cpp), each as the sequential effect of its critical section -/

/-- `ThreadPool::init`, on the fields of the pool (the spawned workers are threads of `Sys`
below). With `threadCount == 0` it returns before touching any field. -/
def init (p : State) (threadCount maxJobCount : Nat) : State :=
  if threadCount = 0 then p
  else { p with threadCount := threadCount, workingCount := 0, stop := false,
                maxJobCount := maxJobCount }

/-- `ThreadPool::addJob`: the returned flag and the pool afterwards. -/
def addJob (p : State) (newJob : job) : Bool × State :=
  if p.maxJobCount = 0 ∨ p.jobQueue.length < p.maxJobCount then
    (true, { p with jobQueue := p.jobQueue ++ [newJob] })
  else
    (false, p)

/-- Lines 97-99 of `worker`: `front`, `pop`, `workingCount++`. Taking the front of an empty
queue is undefined (`none`). -/
def dequeue (p : State) : Option (job × State) :=
  match p.jobQueue with
  | [] => none
  | currentJob :: rest =>
    some (currentJob, { p with jobQueue := rest, workingCount := p.workingCount + 1 })

/-- The loop `while (!jobQueue.empty()) { ... jobQueue.pop(); }` of `shutdown`, by recursion
on the queue: the queue left when the loop exits and the events in program order. -/
def shutdownLoop (finishRemainingJobs : Bool) : List job → List job × List Event
  | [] => ([], [])
  | currentJob :: rest =>
    let r := shutdownLoop finishRemainingJobs rest
    (r.1, (if finishRemainingJobs then [Event.run currentJob] else []) ++ Event.pop :: r.2)

/-- `ThreadPool::shutdown`: the pool afterwards and the events in program order. -/
def shutdown (p : State) (finishRemainingJobs : Bool) : State × List Event :=
  let r := shutdownLoop finishRemainingJobs p.jobQueue
  ({ p with jobQueue := r.1, stop := true },
   Event.lock :: r.2 ++ [Event.setStop, Event.notify_all, Event.unlock])

/-- Repeated `addJob`: the flags returned, in call order, and the pool afterwards. -/
def addJobs (p : State) : List job → List Bool × State
  | [] => ([], p)
  | newJob :: more =>
    let r := addJobs (addJob p newJob).2 more
    ((addJob p newJob).1 :: r.1, r.2)

/-- The jobs run in a trace, in order. -/
def jobsRun : List Event → List job
  | [] => []
  | Event.run j :: es => j :: jobsRun es
  | _ :: es => jobsRun es

/-- The callable invocations of a trace, in order. -/
def callsOf (es : List Event) : List Call := (jobsRun es).flatMap runJob

/-- The events of a trace that come before the stop flag is set. -/
def beforeStop : List Event → List Event
  | [] => []
  | Event.setStop :: _ => []
  | e :: es => e :: beforeStop es

/-! ## The pool as a system of threads

Every access to the fields of the pool happens with `workMutex` held, so the code between
acquiring and releasing the mutex is one atomic step; the steps of different threads
interleave. `workMutex` records the owner. A thread blocked in a condition-variable wait
has released the mutex and may wake at any time (spurious wake-ups are allowed), which
covers every notification. -/

/-- Which code invokes a job callable. -/
inductive Site where
  | worker : Site
  | shutdown : Site
  deriving DecidableEq, Repr

/-- Program counter of a thread. -/
inductive Pc where
  /-- Outside the pool's code. -/
  | idle : Pc
  /-- `worker`, line 81: about to acquire `workMutex`. -/
  | wLock : Pc
  /-- `worker`, lines 84-100, `workMutex` held. -/
  | wWait : Pc
  /-- `worker`, line 85: inside `newJobCond.wait`, `workMutex` released. -/
  | wBlocked : Pc
  /-- `worker`, lines 102-104: about to run `currentJob`. -/
  | wRun (currentJob : job) : Pc
  /-- `worker`, line 107: about to re-acquire `workMutex`. -/
  | wRelock : Pc
  /-- `worker`, lines 108-113, `workMutex` held. -/
  | wFinish : Pc
  /-- `worker` has returned (line 93). -/
  | wExit : Pc
  /-- `shutdown`, line 33: about to acquire `workMutex`. -/
  | sLock (finishRemainingJobs : Bool) : Pc
  /-- `shutdown`, line 34: the loop test. -/
  | sLoop (finishRemainingJobs : Bool) : Pc
  /-- `shutdown`, lines 38-40: about to run `currentJob`. -/
  | sRun (currentJob : job) : Pc
  /-- `shutdown`, line 42: about to pop. -/
  | sPop (finishRemainingJobs : Bool) : Pc
  /-- `addJob`, line 50: about to acquire `workMutex`. -/
  | aLock (newJob : job) : Pc
  /-- `addJob`, lines 53-62, `workMutex` held. -/
  | aCheck (newJob : job) : Pc
  /-- `waitForAllJobsDone`, line 66: about to acquire `workMutex`. -/
  | qLock : Pc
  /-- `waitForAllJobsDone`, line 69, `workMutex` held. -/
  | qCheck : Pc
  /-- `waitForAllJobsDone`, line 70: inside `noJobCond.wait`, `workMutex` released. -/
  | qBlocked : Pc
  deriving DecidableEq, Repr

/-- What a step does that can be observed. -/
inductive Label where
  | tau : Label
  /-- Thread `t` invokes a job callable, `func(args)`. -/
  | call (t : Nat) (site : Site) (func args : Nat) : Label
  /-- Thread `t` returns `ret` from `addJob(newJob)`. -/
  | addJobReturned (t : Nat) (newJob : job) (ret : Bool) : Label
  /-- Worker `t` has taken `currentJob` from the queue. -/
  | dequeued (t : Nat) (currentJob : job) : Label
  /-- Worker `t` has finished its job. -/
  | finished (t : Nat) : Label
  deriving DecidableEq, Repr

/-- The pool together with its mutex and the threads that use it. -/
structure Sys where
  pool : State
  workMutex : Option Nat
  pc : Nat → Pc

/-- Thread `t` moves to `pc`. -/
def Sys.goto (σ : Sys) (t : Nat) (pc : Pc) : Sys :=
  { σ with pc := Function.update σ.pc t pc }

/-- `workMutex.lock()` by thread `t`: enabled only while the mutex is free. -/
def Sys.acquire (σ : Sys) (t : Nat) (pc : Pc) : Option (Sys × Label) :=
  match σ.workMutex with
  | none => some ({ σ with workMutex := some t, pc := Function.update σ.pc t pc }, Label.tau)
  | some _ => none

/-- Thread `t` stores `pool`, releases `workMutex` and moves to `pc`. -/
def Sys.release (σ : Sys) (t : Nat) (pool : State) (pc : Pc) : Sys :=
  { pool := pool, workMutex := none, pc := Function.update σ.pc t pc }

/-- The label of running `currentJob` at `site`. -/
def runLabel (t : Nat) (site : Site) (currentJob : job) : Label :=
  match currentJob.func with
  | some f => Label.call t site f currentJob.args
  | none => Label.tau

/-- The next atomic step of thread `t`; `none` when the thread cannot move. -/
def next (σ : Sys) (t : Nat) : Option (Sys × Label) :=
  match σ.pc t with
  | Pc.idle => none
  | Pc.wLock => σ.acquire t Pc.wWait
  | Pc.wWait =>
    if σ.pool.jobQueue = [] ∧ σ.pool.stop = false then
      some (σ.release t σ.pool Pc.wBlocked, Label.tau)
    else if σ.pool.stop = true then
      some (σ.release t { σ.pool with threadCount := σ.pool.threadCount - 1 } Pc.wExit,
            Label.tau)
    else
      match dequeue σ.pool with
      | some (currentJob, pool) =>
        some (σ.release t pool (Pc.wRun currentJob), Label.dequeued t currentJob)
      | none => none
  | Pc.wBlocked => σ.acquire t Pc.wWait
  | Pc.wRun currentJob => some (σ.goto t Pc.wRelock, runLabel t Site.worker currentJob)
  | Pc.wRelock => σ.acquire t Pc.wFinish
  | Pc.wFinish =>
    some (σ.release t { σ.pool with workingCount := σ.pool.workingCount - 1 } Pc.wLock,
          Label.finished t)
  | Pc.wExit => none
  | Pc.sLock fin => σ.acquire t (Pc.sLoop fin)
  | Pc.sLoop fin =>
    match σ.pool.jobQueue with
    | [] => some (σ.release t { σ.pool with stop := true } Pc.idle, Label.tau)
    | currentJob :: _ =>
      if fin = true then some (σ.goto t (Pc.sRun currentJob), Label.tau)
      else some (σ.goto t (Pc.sPop fin), Label.tau)
  | Pc.sRun currentJob => some (σ.goto t (Pc.sPop true), runLabel t Site.shutdown currentJob)
  | Pc.sPop fin =>
    some ({ σ with pool := { σ.pool with jobQueue := σ.pool.jobQueue.tail },
                   pc := Function.update σ.pc t (Pc.sLoop fin) }, Label.tau)
  | Pc.aLock newJob => σ.acquire t (Pc.aCheck newJob)
  | Pc.aCheck newJob =>
    some (σ.release t (addJob σ.pool newJob).2 Pc.idle,
          Label.addJobReturned t newJob (addJob σ.pool newJob).1)
  | Pc.qLock => σ.acquire t Pc.qCheck
  | Pc.qCheck =>
    if σ.pool.workingCount ≠ 0 ∨ σ.pool.jobQueue ≠ [] then
      some (σ.release t σ.pool Pc.qBlocked, Label.tau)
    else
      some (σ.release t σ.pool Pc.idle, Label.tau)
  | Pc.qBlocked => σ.acquire t Pc.qCheck

/-- What the scheduler and the application can do. -/
inductive Action where
  /-- Thread `t` executes its next atomic step. -/
  | step (t : Nat) : Action
  /-- Idle thread `t` calls `addJob(newJob)`. -/
  | callAddJob (t : Nat) (newJob : job) : Action
  /-- Idle thread `t` calls `shutdown(finishRemainingJobs)`. -/
  | callShutdown (t : Nat) (finishRemainingJobs : Bool) : Action
  /-- Idle thread `t` calls `waitForAllJobsDone()`. -/
  | callWaitForAllJobsDone (t : Nat) : Action
  deriving DecidableEq, Repr

/-- An idle thread enters a member function. -/
def Sys.enter (σ : Sys) (t : Nat) (pc : Pc) : Option (Sys × Label) :=
  if σ.pc t = Pc.idle then some (σ.goto t pc, Label.tau) else none

/-- One transition of the system. -/
def perform (σ : Sys) : Action → Option (Sys × Label)
  | Action.step t => next σ t
  | Action.callAddJob t newJob => σ.enter t (Pc.aLock newJob)
  | Action.callShutdown t fin => σ.enter t (Pc.sLock fin)
  | Action.callWaitForAllJobsDone t => σ.enter t Pc.qLock

/-- A run: the actions are performed in order, giving the state reached and the labels of
the steps; `none` if one of the actions is not enabled. -/
def exec (σ : Sys) : List Action → Option (Sys × List Label)
  | [] => some (σ, [])
  | a :: rest =>
    match perform σ a with
    | some (σ', l) =>
      match exec σ' rest with
      | some (σ'', ls) => some (σ'', l :: ls)
      | none => none
    | none => none

/-- The pool after `init(threadCount, maxJobCount)` on a pool whose queue is empty: the
threads `0 .. threadCount - 1` are the workers, every other thread is outside the pool. -/
def Sys.start (threadCount maxJobCount : Nat) : Sys where
  pool := init ⟨[], false, 0, 0, 0⟩ threadCount maxJobCount
  workMutex := none
  pc := fun t => if t < threadCount then Pc.wLock else Pc.idle

/-- The program counters at which the code has `workMutex` locked. -/
def holdsLock : Pc → Bool
  | Pc.wWait => true
  | Pc.wFinish => true
  | Pc.sLoop _ => true
  | Pc.sRun _ => true
  | Pc.sPop _ => true
  | Pc.aCheck _ => true
  | Pc.qCheck => true
  | _ => false

/-- The owner of `workMutex` is exactly the thread whose code is between a lock and the
matching unlock. -/
def LockInv (σ : Sys) : Prop :=
  ∀ t, σ.workMutex = some t ↔ holdsLock (σ.pc t) = true

/-- The state a run reaches (the initial state itself when the run is not possible). -/
def stateAfter (σ : Sys) (acts : List Action) : Sys :=
  match exec σ acts with
  | some r => r.1
  | none => σ

/-- The labels of a run, in order. -/
def labelsOf (σ : Sys) (acts : List Action) : List Label :=
  match exec σ acts with
  | some r => r.2
  | none => []

/-- The job-callable invocations among the labels of a run: who called, from which code,
and what. -/
def callsIn : List Label → List (Nat × Site × Call)
  | [] => []
  | Label.call t site f args :: ls => (t, site, (f, args)) :: callsIn ls
  | _ :: ls => callsIn ls

/-- The steps thread `t` takes inside the loop of `shutdown` for a queue `q`, followed by
the step that leaves the loop, sets the stop flag and unlocks. -/
def shutdownLoopSchedule (t : Nat) (finishRemainingJobs : Bool) : List job → List Action
  | [] => [Action.step t]
  | _ :: rest =>
    if finishRemainingJobs = true then
      Action.step t :: Action.step t :: Action.step t
        :: shutdownLoopSchedule t finishRemainingJobs rest
    else
      Action.step t :: Action.step t :: shutdownLoopSchedule t finishRemainingJobs rest

/-- The schedule in which thread `t` calls `shutdown` on a pool whose queue is `q` and runs
it to completion without another thread being scheduled in between. -/
def shutdownSchedule (t : Nat) (finishRemainingJobs : Bool) (q : List job) : List Action :=
  Action.callShutdown t finishRemainingJobs :: Action.step t
    :: shutdownLoopSchedule t finishRemainingJobs q

/-! ## The history of a run

What the labels of a run record about the jobs: which were accepted by `addJob`, which
were taken from the queue by a worker, and how many a worker has finished. -/

/-- The job a step accepts: `addJob` returning true. -/
def Label.acceptedJob : Label → Option job
  | Label.addJobReturned _ newJob true => some newJob
  | _ => none

/-- The job a step takes from the queue. -/
def Label.dequeuedJob : Label → Option job
  | Label.dequeued _ currentJob => some currentJob
  | _ => none

/-- Whether a step is a worker finishing its job (lines 107-113 of `worker`). -/
def Label.isFinished : Label → Bool
  | Label.finished _ => true
  | _ => false

/-- The jobs accepted by `addJob` in a run, in acceptance order. -/
def acceptedJobs (ls : List Label) : List job := ls.filterMap Label.acceptedJob

/-- The jobs dequeued by workers in a run, in dequeue order. -/
def dequeuedJobs (ls : List Label) : List job := ls.filterMap Label.dequeuedJob

/-- The number of jobs the workers have finished in a run. -/
def finishedCount (ls : List Label) : Nat := (ls.filter Label.isFinished).length

/-- The effect of one step on the workers that hold a dequeued, unfinished job. -/
def busyStep (ws : List Nat) : Label → List Nat
  | Label.dequeued t _ => t :: ws
  | Label.finished t => ws.erase t
  | _ => ws

/-- The workers that hold a dequeued, unfinished job after a run. -/
def busyWorkers (ls : List Label) : List Nat := ls.foldl busyStep []

/-- The program counters of `worker` between taking a job and giving it up
(lines 100-108). -/
def inFlightPc : Pc → Bool
  | Pc.wRun _ => true
  | Pc.wRelock => true
  | Pc.wFinish => true
  | _ => false

/-- The program counters inside `shutdown`. -/
def shutdownPc : Pc → Bool
  | Pc.sLock _ => true
  | Pc.sLoop _ => true
  | Pc.sRun _ => true
  | Pc.sPop _ => true
  | _ => false

/-- Whether an action is a call of `shutdown`. -/
def Action.isShutdownCall : Action → Bool
  | Action.callShutdown _ _ => true
  | _ => false

/-- What holds of a state `σ` and the labels `hist` of the run that led to it, as long as
`shutdown` is not called. -/
structure FifoInv (σ : Sys) (hist : List Label) : Prop where
  queue : dequeuedJobs hist ++ σ.pool.jobQueue = acceptedJobs hist
  working : σ.pool.workingCount = (busyWorkers hist).length
  count : (busyWorkers hist).length + finishedCount hist = (dequeuedJobs hist).length
  busy : ∀ t, inFlightPc (σ.pc t) = true → t ∈ busyWorkers hist
  noShutdown : ∀ t, shutdownPc (σ.pc t) = false

end ThreadPool

/-! # Properties of the router -/

namespace RESTserver

theorem ucaseChar_eq_of_toLowerAscii_eq {c d : Nat} (h : toLowerAscii c = toLowerAscii d) :
    ucaseChar c = ucaseChar d := by
  unfold toLowerAscii at h
  unfold ucaseChar
  split_ifs at h with hc hd hd
  · have : c = d := by omega
    rw [this]
  · obtain ⟨h1, h2⟩ := hc
    subst h
    interval_cases c <;> rfl
  · obtain ⟨h1, h2⟩ := hd
    subst h
    interval_cases d <;> rfl
  · rw [h]

theorem ucase_eq_of_map_toLowerAscii_eq :
    ∀ (a b : CString), a.map toLowerAscii = b.map toLowerAscii → ucase a = ucase b
  | [], [], _ => rfl
  | [], _ :: _, h => by simp at h
  | _ :: _, [], h => by simp at h
  | c :: a, d :: b, h => by
    simp only [List.map_cons, List.cons.injEq] at h
    have ih := ucase_eq_of_map_toLowerAscii_eq a b h.2
    unfold ucase at ih ⊢
    simp only [List.map_cons, ih, ucaseChar_eq_of_toLowerAscii_eq h.1]

theorem ucase_eq_of_eqIgnoreAsciiCase {a b : CString} (h : eqIgnoreAsciiCase a b = true) :
    ucase a = ucase b :=
  ucase_eq_of_map_toLowerAscii_eq a b (by simpa [eqIgnoreAsciiCase] using h)

theorem addHandler_router_new (s : State) (m p : CString) (h : handler)
    (hp : s.router p = none) :
    (addHandler s m p h).2.router p = some ⟨ucase m, h⟩ := by
  simp [addHandler, map_insert, hp]

theorem addHandler_registered (s : State) (m p : CString) (h : handler) (info : handlerInfo)
    (hp : s.router p = some info) :
    addHandler s m p h = (⟨p, false⟩, s) := by
  simp [addHandler, map_insert, hp]

/-- C1: after `addHandler(m, p, h)` with a non-empty method `m` on a path `p` that was not
registered, `matchHandler(m', p)` returns exactly `h` for every request method `m'` that
equals `m` up to ASCII letter case. -/
theorem matchHandler_addHandler_ignores_case (s : State) (m p : CString) (h : handler)
    (m' : CString) (hm : m ≠ []) (hp : s.router p = none)
    (hcase : eqIgnoreAsciiCase m' m = true) :
    matchHandler (addHandler s m p h).2 m' p = Except.ok h := by
  have hu : ucase m' = ucase m := ucase_eq_of_eqIgnoreAsciiCase hcase
  unfold matchHandler
  rw [addHandler_router_new s m p h hp]
  cases m with
  | nil => exact absurd rfl hm
  | cons c rest =>
    rw [show ucase (c :: rest) = ucaseChar c :: ucase rest from rfl] at hu ⊢
    simp [string_at, hu]

theorem matchHandler_addHandler_ignores_case_witness :
    cstr "get" ≠ [] ∧ State.fresh.router (cstr "/hello") = none ∧
    eqIgnoreAsciiCase (cstr "GET") (cstr "get") = true ∧
    matchHandler (addHandler State.fresh (cstr "get") (cstr "/hello") (handler.fn 1)).2
      (cstr "GET") (cstr "/hello") = Except.ok (handler.fn 1) :=
  ⟨by decide, rfl, by decide,
   matchHandler_addHandler_ignores_case State.fresh (cstr "get") (cstr "/hello") (handler.fn 1)
     (cstr "GET") (by decide) rfl (by decide)⟩

theorem toLowerAscii_ucaseChar_of_letter :
    ∀ x < 256, 65 ≤ ucaseChar x → ucaseChar x ≤ 90 →
      toLowerAscii x = toLowerAscii (ucaseChar x) := by
  intro x hx
  interval_cases x <;> decide

theorem map_toLowerAscii_of_ucase_eq :
    ∀ (r m : CString), (∀ x ∈ r, x < 256) → (∀ c ∈ m, 65 ≤ c ∧ c ≤ 90) → ucase r = m →
      r.map toLowerAscii = m.map toLowerAscii
  | [], [], _, _, _ => rfl
  | [], _ :: _, _, _, h => by simp [ucase] at h
  | _ :: _, [], _, _, h => by simp [ucase] at h
  | x :: r, c :: m, hr, hm, h => by
    simp only [ucase, List.map_cons, List.cons.injEq] at h
    have hx : x < 256 := hr x (List.mem_cons_self _ _)
    have hc := hm c (List.mem_cons_self _ _)
    have ih := map_toLowerAscii_of_ucase_eq r m
      (fun y hy => hr y (List.mem_cons_of_mem _ hy))
      (fun y hy => hm y (List.mem_cons_of_mem _ hy)) h.2
    have h1 := toLowerAscii_ucaseChar_of_letter x hx (by rw [h.1]; exact hc.1)
      (by rw [h.1]; exact hc.2)
    rw [h.1] at h1
    simp only [List.map_cons, ih, h1]

/-- Where the behaviour the specification describes for a wrong method does hold: a stored
method made of capital letters only, and a request method made of bytes. -/
theorem matchHandler_wrong_method_of_letters (s : State) (p r : CString) (info : handlerInfo)
    (hp : s.router p = some info) (hne : info.method ≠ [])
    (hm : ∀ c ∈ info.method, 65 ≤ c ∧ c ≤ 90) (hr : ∀ x ∈ r, x < 256)
    (hcase : eqIgnoreAsciiCase r info.method = false) :
    matchHandler s r p =
      Except.ok (if s.wrongMethodHandler.eventHandler ≠ handler.NULL
        then s.wrongMethodHandler.eventHandler else handler.builtInHandler) := by
  have hu : ucase r ≠ info.method := by
    intro h
    have := map_toLowerAscii_of_ucase_eq r info.method hr hm h
    simp [eqIgnoreAsciiCase, this] at hcase
  unfold matchHandler
  rw [hp]
  rcases info with ⟨method, eh⟩
  cases method with
  | nil => exact absurd rfl hne
  | cons c rest =>
    have hc := hm c (List.mem_cons_self _ _)
    have hc0 : c ≠ 0 := by omega
    simp only [string_at, List.getElem?_cons_zero, hc0, hu, or_self, if_false]
    split_ifs <;> rfl

/-- C2, at the failing input: the route `/p` is registered with the method `^` and the
wrong-method handler is set; the request method `~` is not equal to `^` up to ASCII letter
case, yet `matchHandler` returns the handler of the route and not the wrong-method handler. -/
theorem matchHandler_tilde_matches_caret :
    (setWrongMethodHandler
        (addHandler State.fresh (cstr "^") (cstr "/p") (handler.fn 1)).2
        (handler.fn 2)).router (cstr "/p") = some ⟨cstr "^", handler.fn 1⟩ ∧
    eqIgnoreAsciiCase (cstr "~") (cstr "^") = false ∧
    matchHandler
      (setWrongMethodHandler
        (addHandler State.fresh (cstr "^") (cstr "/p") (handler.fn 1)).2 (handler.fn 2))
      (cstr "~") (cstr "/p") = Except.ok (handler.fn 1) := by
  decide

/-- C3, at the failing input: a route registered with the empty method string; the request
`GET /p` makes `matchHandler` throw `std::out_of_range` from `at(0)`. -/
theorem matchHandler_wildcard_throws :
    (addHandler State.fresh [] (cstr "/p") (handler.fn 1)).2.router (cstr "/p")
      = some ⟨[], handler.fn 1⟩ ∧
    matchHandler (addHandler State.fresh [] (cstr "/p") (handler.fn 1)).2
      (cstr "GET") (cstr "/p") = Except.error Exception.out_of_range := by
  decide

/-- Every request on a route whose stored method is empty throws. -/
theorem matchHandler_empty_method_throws (s : State) (p r : CString) (h : handler)
    (hp : s.router p = some ⟨[], h⟩) :
    matchHandler s r p = Except.error Exception.out_of_range := by
  simp [matchHandler, hp, string_at]

/-- C4, counterexample: `/p` is registered with `(GET, fn 1)`; after
`addHandler(POST, /p, fn 2)` the router does not map `/p` to `(POST, fn 2)` and
`matchHandler(POST, /p)` does not return `fn 2`. -/
theorem addHandler_does_not_overwrite :
    ¬ ((addHandler (addHandler State.fresh (cstr "GET") (cstr "/p") (handler.fn 1)).2
          (cstr "POST") (cstr "/p") (handler.fn 2)).2.router (cstr "/p")
        = some ⟨ucase (cstr "POST"), handler.fn 2⟩) ∧
    ¬ (matchHandler
        (addHandler (addHandler State.fresh (cstr "GET") (cstr "/p") (handler.fn 1)).2
          (cstr "POST") (cstr "/p") (handler.fn 2)).2
        (cstr "POST") (cstr "/p") = Except.ok (handler.fn 2)) := by
  decide

/-- C4, amended: when `p` is already registered with `info`, `addHandler(m2, p, h2)` leaves
the server unchanged: the returned identifier designates the existing entry and reports
that nothing was inserted, `p` is still mapped to `info`, and `matchHandler` answers every
request as before. -/
theorem addHandler_keeps_registered_entry (s : State) (m2 p : CString) (h2 : handler)
    (info : handlerInfo) (hp : s.router p = some info) :
    (addHandler s m2 p h2).1 = ⟨p, false⟩ ∧
    (addHandler s m2 p h2).2 = s ∧
    (addHandler s m2 p h2).2.router p = some info ∧
    ∀ r q, matchHandler (addHandler s m2 p h2).2 r q = matchHandler s r q := by
  rw [addHandler_registered s m2 p h2 info hp]
  exact ⟨rfl, rfl, hp, fun _ _ => rfl⟩

theorem addHandler_keeps_registered_entry_witness :
    (addHandler State.fresh (cstr "GET") (cstr "/p") (handler.fn 1)).2.router (cstr "/p")
      = some ⟨cstr "GET", handler.fn 1⟩ ∧
    (addHandler (addHandler State.fresh (cstr "GET") (cstr "/p") (handler.fn 1)).2
      (cstr "POST") (cstr "/p") (handler.fn 2)).1 = ⟨cstr "/p", false⟩ ∧
    matchHandler
      (addHandler (addHandler State.fresh (cstr "GET") (cstr "/p") (handler.fn 1)).2
        (cstr "POST") (cstr "/p") (handler.fn 2)).2 (cstr "GET") (cstr "/p")
      = Except.ok (handler.fn 1) :=
  have h := addHandler_keeps_registered_entry
    (addHandler State.fresh (cstr "GET") (cstr "/p") (handler.fn 1)).2
    (cstr "POST") (cstr "/p") (handler.fn 2) ⟨cstr "GET", handler.fn 1⟩ (by decide)
  ⟨by decide, h.1, (h.2.2.2 (cstr "GET") (cstr "/p")).trans (by decide)⟩

/-- C5, at the failing input: after `addHandler("GET", "/p", NULL)` the request `GET /p`
makes `matchHandler` return the null handler. -/
theorem matchHandler_returns_NULL :
    matchHandler (addHandler State.fresh (cstr "GET") (cstr "/p") handler.NULL).2
      (cstr "GET") (cstr "/p") = Except.ok handler.NULL := by
  decide

/-- Where the guarantee of C5 does hold: when no route stores the null handler, whatever
`matchHandler` returns is not null. -/
theorem matchHandler_ne_NULL_of_routes (s : State)
    (hroutes : ∀ p info, s.router p = some info → info.eventHandler ≠ handler.NULL)
    (r p : CString) (h : handler) (hres : matchHandler s r p = Except.ok h) :
    h ≠ handler.NULL := by
  unfold matchHandler at hres
  cases hp : s.router p with
  | none =>
    rw [hp] at hres
    simp only at hres
    split_ifs at hres with h1
    · cases hres; exact h1
    · cases hres; simp
  | some info =>
    rw [hp] at hres
    simp only at hres
    cases hat : string_at info.method 0 with
    | error e => rw [hat] at hres; cases hres
    | ok c =>
      rw [hat] at hres
      simp only at hres
      split_ifs at hres with h1 h2
      · cases hres; exact hroutes p info hp
      · cases hres; exact h2
      · cases hres; simp

/-- C6, counterexample: `GET /only-get` is registered and no fallback handler is set. The
reply to `POST /only-get` is the same as the reply to `POST /missing`, and its status is
404, not 400. -/
theorem builtIn_reply_wrong_method_is_not_found :
    httpRequestDispatch (fun _ => "")
        (addHandler State.fresh (cstr "GET") (cstr "/only-get") (handler.fn 1)).2
        (cstr "POST") (cstr "/only-get")
      = httpRequestDispatch (fun _ => "")
        (addHandler State.fresh (cstr "GET") (cstr "/only-get") (handler.fn 1)).2
        (cstr "POST") (cstr "/missing") ∧
    httpRequestDispatch (fun _ => "")
        (addHandler State.fresh (cstr "GET") (cstr "/only-get") (handler.fn 1)).2
        (cstr "POST") (cstr "/only-get")
      = Except.ok (some "HTTP/1.1 404\r\nContent-Length: 9\r\n\r\nNot found") ∧
    statusOf "HTTP/1.1 404\r\nContent-Length: 9\r\n\r\nNot found" ≠ ['4', '0', '0'] := by
  decide

/-- C6, amended: with no wrong-method handler set, the handler `matchHandler` returns for a
registered path requested with a mismatching method is the same built-in handler it returns
for an unregistered path when no default handler is set; called, it replies with status 404
and the body `Not found`. -/
theorem builtIn_handler_shared (s : State) (p q r r' : CString) (info : handlerInfo) (c : Nat)
    (user : Nat → String)
    (hp : s.router p = some info) (hfirst : info.method[0]? = some c) (hc : c ≠ 0)
    (hmis : ucase r ≠ info.method)
    (hwrong : s.wrongMethodHandler.eventHandler = handler.NULL)
    (hq : s.router q = none) (hdef : s.defaultHandler.eventHandler = handler.NULL) :
    matchHandler s r p = Except.ok handler.builtInHandler ∧
    matchHandler s r' q = Except.ok handler.builtInHandler ∧
    httpRequestDispatch user s r p
      = Except.ok (some "HTTP/1.1 404\r\nContent-Length: 9\r\n\r\nNot found") ∧
    httpRequestDispatch user s r p = httpRequestDispatch user s r' q := by
  have h1 : matchHandler s r p = Except.ok handler.builtInHandler := by
    simp [matchHandler, hp, string_at, hfirst, hc, hmis, hwrong]
  have h2 : matchHandler s r' q = Except.ok handler.builtInHandler := by
    simp [matchHandler, hq, hdef]
  refine ⟨h1, h2, ?_, ?_⟩
  · simp [httpRequestDispatch, h1, callHandler, builtInHandler_reply]
  · simp [httpRequestDispatch, h1, h2]

theorem builtIn_handler_shared_witness :
    matchHandler (addHandler State.fresh (cstr "GET") (cstr "/only-get") (handler.fn 1)).2
      (cstr "POST") (cstr "/only-get") = Except.ok handler.builtInHandler ∧
    matchHandler (addHandler State.fresh (cstr "GET") (cstr "/only-get") (handler.fn 1)).2
      (cstr "GET") (cstr "/missing") = Except.ok handler.builtInHandler :=
  have h := builtIn_handler_shared
    (addHandler State.fresh (cstr "GET") (cstr "/only-get") (handler.fn 1)).2
    (cstr "/only-get") (cstr "/missing") (cstr "POST") (cstr "GET")
    ⟨cstr "GET", handler.fn 1⟩ 71 (fun _ => "")
    (by decide) (by decide) (by decide) (by decide) (by decide) (by decide) (by decide)
  ⟨h.1, h.2.1⟩

theorem removeHandler_eq (s : State) (p : CString) (info : handlerInfo)
    (hp : s.router p = some info) :
    removeHandler s ⟨p, true⟩ = some { s with router := fun k => if k = p then none else s.router k }
    ∧ removeHandler s ⟨p, false⟩
      = some { s with router := fun k => if k = p then none else s.router k } := by
  simp [removeHandler, map_erase, hp]

/-- C9: `removeHandler` applied to the identifier returned by `addHandler(method, p, handler)`
completes and leaves `p` unregistered, so that `matchHandler` on `p` yields the default
handler when one is set and the built-in handler otherwise; the entry of every other path is
unchanged; and when `p` was not registered beforehand the server is exactly as it was. -/
theorem removeHandler_addHandler (s : State) (method p : CString) (h : handler) :
    ∃ s', removeHandler (addHandler s method p h).2 (addHandler s method p h).1 = some s' ∧
      s'.router p = none ∧
      (∀ r, matchHandler s' r p =
        Except.ok (if s.defaultHandler.eventHandler ≠ handler.NULL
          then s.defaultHandler.eventHandler else handler.builtInHandler)) ∧
      (∀ q, q ≠ p → s'.router q = s.router q) ∧
      (s.router p = none → s' = s) := by
  refine ⟨{ s with router := fun k => if k = p then none else s.router k }, ?_, ?_, ?_, ?_, ?_⟩
  · cases hp : s.router p with
    | none =>
      have hr : (addHandler s method p h).2.router p = some ⟨ucase method, h⟩ :=
        addHandler_router_new s method p h hp
      have h1 : (addHandler s method p h).1 = ⟨p, true⟩ := by
        simp [addHandler, map_insert, hp]
      rw [h1, (removeHandler_eq _ p _ hr).1]
      simp only [addHandler, map_insert, hp, Option.some.injEq]
      congr 1
      funext k
      by_cases hk : k = p
      · simp [hk]
      · simp [hk]
    | some info =>
      rw [addHandler_registered s method p h info hp]
      exact (removeHandler_eq s p info hp).2
  · simp
  · intro r
    simp only [matchHandler, if_true]
    split_ifs <;> rfl
  · intro q hq
    simp [hq]
  · intro hp
    cases s with
    | mk router d w pl st =>
      simp only [State.mk.injEq, and_true]
      funext k
      by_cases hk : k = p
      · simp only [hk, if_true]; exact hp.symm
      · simp [hk]

theorem removeHandler_addHandler_witness :
    ∃ s', removeHandler
        (addHandler (addHandler State.fresh (cstr "GET") (cstr "/q") (handler.fn 1)).2
          (cstr "GET") (cstr "/p") (handler.fn 2)).2
        (addHandler (addHandler State.fresh (cstr "GET") (cstr "/q") (handler.fn 1)).2
          (cstr "GET") (cstr "/p") (handler.fn 2)).1 = some s' ∧
      s'.router (cstr "/p") = none ∧
      s'.router (cstr "/q") = some ⟨cstr "GET", handler.fn 1⟩ ∧
      s' = (addHandler State.fresh (cstr "GET") (cstr "/q") (handler.fn 1)).2 := by
  obtain ⟨s', h1, h2, _, h4, h5⟩ := removeHandler_addHandler
    (addHandler State.fresh (cstr "GET") (cstr "/q") (handler.fn 1)).2
    (cstr "GET") (cstr "/p") (handler.fn 2)
  exact ⟨s', h1, h2, (h4 (cstr "/q") (by decide)).trans (by decide), h5 (by decide)⟩

end RESTserver

/-! # Properties of the thread pool -/

namespace ThreadPool

theorem addJob_accepts (p : State) (newJob : job)
    (h : p.maxJobCount = 0 ∨ p.jobQueue.length < p.maxJobCount) :
    addJob p newJob = (true, { p with jobQueue := p.jobQueue ++ [newJob] }) := by
  simp [addJob, h]

theorem addJob_rejects (p : State) (newJob : job)
    (h : 0 < p.maxJobCount ∧ p.maxJobCount ≤ p.jobQueue.length) :
    addJob p newJob = (false, p) := by
  have : ¬ (p.maxJobCount = 0 ∨ p.jobQueue.length < p.maxJobCount) := by omega
  simp [addJob, this]

theorem addJobs_within_bound :
    ∀ (js : List job) (p : State), p.jobQueue.length + js.length ≤ p.maxJobCount →
      addJobs p js = (List.replicate js.length true, { p with jobQueue := p.jobQueue ++ js })
  | [], p, _ => by simp [addJobs]
  | j :: js, p, h => by
    have hlt : p.jobQueue.length < p.maxJobCount := by
      simp only [List.length_cons] at h
      omega
    have hj := addJob_accepts p j (Or.inr hlt)
    have ih := addJobs_within_bound js { p with jobQueue := p.jobQueue ++ [j] } (by
      simp only [List.length_append, List.length_cons, List.length_nil] at h ⊢
      omega)
    simp only [addJobs, hj, ih, List.length_cons, List.replicate_succ, List.append_assoc,
      List.singleton_append]

/-- C7: `addJob(j)` returns false, leaving the pool unchanged, exactly when
`maxJobCount > 0` and the queue holds at least `maxJobCount` jobs; otherwise it returns true
and `j` is appended at the tail of the queue. Hence with `maxJobCount = N > 0` the first `N`
calls on an empty queue succeed and fill the queue in call order, the next call fails, and
after one dequeue the next call succeeds; with `maxJobCount = 0` every call succeeds. -/
theorem addJob_backpressure (p : State) (j : job) (js : List job) :
    ((addJob p j).1 = false ↔ (0 < p.maxJobCount ∧ p.maxJobCount ≤ p.jobQueue.length)) ∧
    ((addJob p j).1 = false → (addJob p j).2 = p) ∧
    ((addJob p j).1 = true → (addJob p j).2 = { p with jobQueue := p.jobQueue ++ [j] }) ∧
    (p.maxJobCount = 0 → (addJob p j).1 = true) ∧
    (p.jobQueue = [] → 0 < p.maxJobCount → js.length = p.maxJobCount →
      (addJobs p js).1 = List.replicate p.maxJobCount true ∧
      (addJobs p js).2.jobQueue = js ∧
      addJob (addJobs p js).2 j = (false, (addJobs p js).2) ∧
      ∃ first p', dequeue (addJobs p js).2 = some (first, p') ∧
        js = first :: p'.jobQueue ∧
        addJob p' j = (true, { p' with jobQueue := p'.jobQueue ++ [j] })) := by
  by_cases h : p.maxJobCount = 0 ∨ p.jobQueue.length < p.maxJobCount
  · have hj := addJob_accepts p j h
    refine ⟨?_, ?_, ?_, ?_, ?_⟩
    · rw [hj]
      constructor
      · intro hf; cases hf
      · intro hb; omega
    · rw [hj]; intro hf; cases hf
    · rw [hj]; intro _; rfl
    · rw [hj]; intro _; rfl
    · intro hq hpos hlen
      have hall := addJobs_within_bound js p (by rw [hq]; simp [hlen])
      rw [hall, hq]
      simp only [List.nil_append, hlen]
      refine ⟨trivial, trivial, ?_, ?_⟩
      · exact addJob_rejects _ j ⟨hpos, by simp [hlen]⟩
      · cases js with
        | nil => simp at hlen; omega
        | cons first rest =>
          refine ⟨first, { p with jobQueue := rest, workingCount := p.workingCount + 1 },
            rfl, rfl, ?_⟩
          apply addJob_accepts
          right
          simp only [List.length_cons] at hlen
          simp only
          omega
  · have hb : 0 < p.maxJobCount ∧ p.maxJobCount ≤ p.jobQueue.length := by omega
    have hj := addJob_rejects p j hb
    refine ⟨?_, ?_, ?_, ?_, ?_⟩
    · rw [hj]; exact ⟨fun _ => hb, fun _ => rfl⟩
    · rw [hj]; intro _; rfl
    · rw [hj]; intro hf; cases hf
    · intro h0; omega
    · intro hq hpos _
      rw [hq] at hb
      simp at hb
      omega

theorem addJob_backpressure_witness :
    (addJob ⟨[⟨some 1, 0⟩, ⟨some 2, 0⟩], false, 0, 1, 2⟩ ⟨some 3, 0⟩).1 = false ∧
    (addJob ⟨[⟨some 1, 0⟩, ⟨some 2, 0⟩], false, 0, 1, 2⟩ ⟨some 3, 0⟩).2
      = ⟨[⟨some 1, 0⟩, ⟨some 2, 0⟩], false, 0, 1, 2⟩ ∧
    (addJobs ⟨[], false, 0, 1, 2⟩ [⟨some 1, 0⟩, ⟨some 2, 0⟩]).1 = [true, true] ∧
    addJob (addJobs ⟨[], false, 0, 1, 2⟩ [⟨some 1, 0⟩, ⟨some 2, 0⟩]).2 ⟨some 3, 0⟩
      = (false, ⟨[⟨some 1, 0⟩, ⟨some 2, 0⟩], false, 0, 1, 2⟩) :=
  have hfull := addJob_backpressure ⟨[⟨some 1, 0⟩, ⟨some 2, 0⟩], false, 0, 1, 2⟩ ⟨some 3, 0⟩ []
  have hempty := addJob_backpressure ⟨[], false, 0, 1, 2⟩ ⟨some 3, 0⟩ [⟨some 1, 0⟩, ⟨some 2, 0⟩]
  have hrun := hempty.2.2.2.2 rfl (by decide) rfl
  have hrej := hfull.1.mpr ⟨by decide, by decide⟩
  ⟨hrej, hfull.2.1 hrej, hrun.1, hrun.2.2.1.trans (by decide)⟩

theorem shutdownLoop_true (q : List job) :
    shutdownLoop true q = ([], q.flatMap (fun j => [Event.run j, Event.pop])) := by
  induction q with
  | nil => rfl
  | cons j rest ih => simp [shutdownLoop, ih, List.flatMap_cons]

theorem shutdownLoop_false (q : List job) :
    shutdownLoop false q = ([], q.map (fun _ => Event.pop)) := by
  induction q with
  | nil => rfl
  | cons j rest ih => simp [shutdownLoop, ih]

theorem jobsRun_append (xs ys : List Event) : jobsRun (xs ++ ys) = jobsRun xs ++ jobsRun ys := by
  induction xs with
  | nil => rfl
  | cons e xs ih => cases e <;> simp [jobsRun, ih]

theorem jobsRun_run_pop (q : List job) :
    jobsRun (q.flatMap (fun j => [Event.run j, Event.pop])) = q := by
  induction q with
  | nil => rfl
  | cons j rest ih =>
    show jobsRun (Event.run j :: Event.pop
      :: rest.flatMap (fun j => [Event.run j, Event.pop])) = j :: rest
    simp only [jobsRun, ih]

theorem jobsRun_pops (q : List job) : jobsRun (q.map (fun _ => Event.pop)) = [] := by
  induction q with
  | nil => rfl
  | cons j rest ih => simp only [List.map_cons, jobsRun, ih]

theorem beforeStop_run_pop (q : List job) (rest : List Event) :
    beforeStop (q.flatMap (fun j => [Event.run j, Event.pop]) ++ Event.setStop :: rest)
      = q.flatMap (fun j => [Event.run j, Event.pop]) := by
  induction q with
  | nil => rfl
  | cons j q ih =>
    show beforeStop (Event.run j :: Event.pop
      :: (q.flatMap (fun j => [Event.run j, Event.pop]) ++ Event.setStop :: rest))
      = Event.run j :: Event.pop :: q.flatMap (fun j => [Event.run j, Event.pop])
    simp only [beforeStop, ih]

/-- The events of `shutdown`, in program order, and the pool it leaves. -/
theorem shutdown_trace (p : State) :
    (shutdown p true).2
      = Event.lock :: (p.jobQueue.flatMap (fun j => [Event.run j, Event.pop])
          ++ [Event.setStop, Event.notify_all, Event.unlock]) ∧
    jobsRun (shutdown p true).2 = p.jobQueue ∧
    jobsRun (beforeStop (shutdown p true).2) = p.jobQueue ∧
    callsOf (shutdown p true).2 = p.jobQueue.flatMap runJob ∧
    (shutdown p false).2
      = Event.lock :: (p.jobQueue.map (fun _ => Event.pop)
          ++ [Event.setStop, Event.notify_all, Event.unlock]) ∧
    jobsRun (shutdown p false).2 = [] ∧
    callsOf (shutdown p false).2 = [] ∧
    ∀ b, (shutdown p b).1 = { p with jobQueue := [], stop := true } := by
  have ht : (shutdown p true).2
      = Event.lock :: (p.jobQueue.flatMap (fun j => [Event.run j, Event.pop])
          ++ [Event.setStop, Event.notify_all, Event.unlock]) := by
    simp only [shutdown, shutdownLoop_true, List.cons_append]
  have hf : (shutdown p false).2
      = Event.lock :: (p.jobQueue.map (fun _ => Event.pop)
          ++ [Event.setStop, Event.notify_all, Event.unlock]) := by
    simp only [shutdown, shutdownLoop_false, List.cons_append]
  have hrun : jobsRun (shutdown p true).2 = p.jobQueue := by
    rw [ht]
    simp only [jobsRun, jobsRun_append, jobsRun_run_pop, List.append_nil]
  have hnone : jobsRun (shutdown p false).2 = [] := by
    rw [hf]
    simp only [jobsRun, jobsRun_append, jobsRun_pops, List.append_nil]
  refine ⟨ht, hrun, ?_, ?_, hf, hnone, ?_, ?_⟩
  · rw [ht]
    simp only [beforeStop, beforeStop_run_pop, jobsRun, jobsRun_run_pop]
  · simp [callsOf, hrun]
  · simp [callsOf, hnone]
  · intro b
    cases b
    · simp [shutdown, shutdownLoop_false]
    · simp [shutdown, shutdownLoop_true]

theorem LockInv_of_quiescent (σ : Sys) (hm : σ.workMutex = none)
    (hpc : ∀ t, holdsLock (σ.pc t) = false) : LockInv σ := by
  intro t
  simp [hm, hpc t]

theorem LockInv_acquire {σ σ' : Sys} {t : Nat} {pc : Pc} {l : Label} (hinv : LockInv σ)
    (h : σ.acquire t pc = some (σ', l)) (hpc : holdsLock pc = true) : LockInv σ' := by
  unfold Sys.acquire at h
  cases hm : σ.workMutex with
  | some o => rw [hm] at h; cases h
  | none =>
    rw [hm] at h
    simp only [Option.some.injEq, Prod.mk.injEq] at h
    obtain ⟨rfl, -⟩ := h
    intro u
    by_cases hu : u = t
    · subst hu
      simp [hpc]
    · have hnot : ¬ holdsLock (σ.pc u) = true := by
        intro hh
        have := (hinv u).mpr hh
        rw [hm] at this
        cases this
      have hne : ¬ (some t : Option Nat) = some u := by
        intro hh
        exact hu (Option.some.inj hh).symm
      simp [Function.update_noteq hu, hnot, hne]

theorem LockInv_release {σ : Sys} {t : Nat} {pool : State} {pc : Pc} (hinv : LockInv σ)
    (hold : holdsLock (σ.pc t) = true) (hpc : holdsLock pc = false) :
    LockInv (σ.release t pool pc) := by
  have hown : σ.workMutex = some t := (hinv t).mpr hold
  intro u
  by_cases hu : u = t
  · subst hu
    simp [Sys.release, hpc]
  · have hnot : ¬ holdsLock (σ.pc u) = true := by
      intro hh
      have := (hinv u).mpr hh
      rw [hown] at this
      exact hu (Option.some.inj this).symm
    simp [Sys.release, Function.update_noteq hu, hnot]

theorem LockInv_keep {σ σ' : Sys} {t : Nat} {pc : Pc} (hinv : LockInv σ)
    (hm : σ'.workMutex = σ.workMutex) (hpcs : σ'.pc = Function.update σ.pc t pc)
    (hpc : holdsLock pc = holdsLock (σ.pc t)) : LockInv σ' := by
  intro u
  rw [hm, hpcs]
  by_cases hu : u = t
  · subst hu
    rw [Function.update_same, hpc]
    exact hinv u
  · rw [Function.update_noteq hu]
    exact hinv u

theorem LockInv_enter {σ σ' : Sys} {t : Nat} {pc : Pc} {l : Label} (hinv : LockInv σ)
    (h : σ.enter t pc = some (σ', l)) (hpc : holdsLock pc = false) : LockInv σ' := by
  unfold Sys.enter at h
  split_ifs at h with hidle
  simp only [Option.some.injEq, Prod.mk.injEq] at h
  obtain ⟨rfl, -⟩ := h
  exact LockInv_keep hinv rfl rfl (by rw [hidle, hpc]; rfl)

theorem LockInv_next {σ σ' : Sys} {t : Nat} {l : Label} (hinv : LockInv σ)
    (h : next σ t = some (σ', l)) : LockInv σ' := by
  unfold next at h
  split at h
  · cases h
  · exact LockInv_acquire hinv h rfl
  · rename_i hpc
    have hold : holdsLock (σ.pc t) = true := by rw [hpc]; rfl
    split_ifs at h
    · cases h; exact LockInv_release hinv hold rfl
    · cases h; exact LockInv_release hinv hold rfl
    · split at h
      · cases h; exact LockInv_release hinv hold rfl
      · cases h
  · exact LockInv_acquire hinv h rfl
  · rename_i j hpc
    cases h
    exact LockInv_keep hinv rfl rfl (by rw [hpc]; rfl)
  · exact LockInv_acquire hinv h rfl
  · rename_i hpc
    cases h
    exact LockInv_release hinv (by rw [hpc]; rfl) rfl
  · cases h
  · exact LockInv_acquire hinv h rfl
  · rename_i fin hpc
    have hold : holdsLock (σ.pc t) = true := by rw [hpc]; rfl
    split at h
    · cases h; exact LockInv_release hinv hold rfl
    · split_ifs at h
      · cases h; exact LockInv_keep hinv rfl rfl (by rw [hpc]; rfl)
      · cases h; exact LockInv_keep hinv rfl rfl (by rw [hpc]; rfl)
  · rename_i j hpc
    cases h
    exact LockInv_keep hinv rfl rfl (by rw [hpc]; rfl)
  · rename_i fin hpc
    cases h
    exact LockInv_keep hinv rfl rfl (by rw [hpc]; rfl)
  · exact LockInv_acquire hinv h rfl
  · rename_i j hpc
    cases h
    exact LockInv_release hinv (by rw [hpc]; rfl) rfl
  · exact LockInv_acquire hinv h rfl
  · rename_i hpc
    have hold : holdsLock (σ.pc t) = true := by rw [hpc]; rfl
    split_ifs at h
    · cases h; exact LockInv_release hinv hold rfl
    · cases h; exact LockInv_release hinv hold rfl
  · exact LockInv_acquire hinv h rfl

theorem LockInv_perform {σ σ' : Sys} {a : Action} {l : Label} (hinv : LockInv σ)
    (h : perform σ a = some (σ', l)) : LockInv σ' := by
  cases a with
  | step t => exact LockInv_next hinv h
  | callAddJob t j => exact LockInv_enter hinv h rfl
  | callShutdown t fin => exact LockInv_enter hinv h rfl
  | callWaitForAllJobsDone t => exact LockInv_enter hinv h rfl

theorem LockInv_exec :
    ∀ (acts : List Action) (σ σ' : Sys) (ls : List Label), LockInv σ →
      exec σ acts = some (σ', ls) → LockInv σ'
  | [], σ, σ', ls, hinv, h => by
    simp only [exec, Option.some.injEq, Prod.mk.injEq] at h
    rw [← h.1]
    exact hinv
  | a :: rest, σ, σ', ls, hinv, h => by
    unfold exec at h
    cases hp : perform σ a with
    | none => rw [hp] at h; cases h
    | some r =>
      obtain ⟨σ1, l⟩ := r
      rw [hp] at h
      simp only at h
      cases he : exec σ1 rest with
      | none => rw [he] at h; cases h
      | some r2 =>
        obtain ⟨σ2, ls2⟩ := r2
        rw [he] at h
        simp only [Option.some.injEq, Prod.mk.injEq] at h
        rw [← h.1]
        exact LockInv_exec rest σ1 σ2 ls2 (LockInv_perform hinv hp) he

theorem acquire_label {σ σ' : Sys} {t : Nat} {pc : Pc} {l : Label}
    (h : σ.acquire t pc = some (σ', l)) : l = Label.tau := by
  unfold Sys.acquire at h
  split at h
  · cases h; rfl
  · cases h

theorem runLabel_call {t u : Nat} {site site' : Site} {j : job} {f args : Nat}
    (h : runLabel t site j = Label.call u site' f args) :
    u = t ∧ site' = site ∧ j = ⟨some f, args⟩ := by
  unfold runLabel at h
  rcases j with ⟨func, a⟩
  cases func with
  | none => cases h
  | some g =>
    simp only [Label.call.injEq] at h
    obtain ⟨rfl, rfl, rfl, rfl⟩ := h
    exact ⟨rfl, rfl, rfl⟩

/-- The only steps that invoke a job callable are the ones at lines 102-104 of `worker`
and at lines 38-40 of `shutdown`, taken by the thread named in the label; they leave the
mutex as it is. -/
theorem call_step {σ σ' : Sys} {a : Action} {t f args : Nat} {site : Site}
    (h : perform σ a = some (σ', Label.call t site f args)) :
    a = Action.step t ∧ σ'.workMutex = σ.workMutex ∧
    ((site = Site.worker ∧ σ.pc t = Pc.wRun ⟨some f, args⟩) ∨
     (site = Site.shutdown ∧ σ.pc t = Pc.sRun ⟨some f, args⟩)) := by
  cases a with
  | callAddJob u j => simp [perform, Sys.enter] at h
  | callShutdown u fin => simp [perform, Sys.enter] at h
  | callWaitForAllJobsDone u => simp [perform, Sys.enter] at h
  | step u =>
    simp only [perform] at h
    unfold next at h
    split at h
    · cases h
    · cases acquire_label h
    · split_ifs at h
      · cases h
      · cases h
      · split at h
        · cases h
        · cases h
    · cases acquire_label h
    · rename_i j hpc
      simp only [Option.some.injEq, Prod.mk.injEq] at h
      obtain ⟨rfl, rfl, rfl⟩ := runLabel_call h.2
      exact ⟨rfl, by rw [← h.1]; rfl, Or.inl ⟨rfl, hpc⟩⟩
    · cases acquire_label h
    · cases h
    · cases h
    · cases acquire_label h
    · split at h
      · cases h
      · split_ifs at h
        · cases h
        · cases h
    · rename_i j hpc
      simp only [Option.some.injEq, Prod.mk.injEq] at h
      obtain ⟨rfl, rfl, rfl⟩ := runLabel_call h.2
      exact ⟨rfl, by rw [← h.1]; rfl, Or.inr ⟨rfl, hpc⟩⟩
    · cases h
    · cases acquire_label h
    · cases h
    · cases acquire_label h
    · split_ifs at h
      · cases h
      · cases h
    · cases acquire_label h

theorem start_quiescent (threadCount maxJobCount : Nat) :
    (Sys.start threadCount maxJobCount).workMutex = none ∧
    ∀ u, holdsLock ((Sys.start threadCount maxJobCount).pc u) = false := by
  refine ⟨rfl, fun u => ?_⟩
  simp only [Sys.start]
  split_ifs <;> rfl

/-- C10, counterexample: a pool with one worker (thread 0, not yet scheduled); thread 1
adds a job and then calls `shutdown(true)`. When thread 1 is about to invoke the callable of
the job, `workMutex` is held by thread 1, and it is still held after the invocation. -/
theorem shutdown_invokes_callable_holding_workMutex :
    (exec (Sys.start 1 0)
        [Action.callAddJob 1 ⟨some 7, 0⟩, Action.step 1, Action.step 1,
         Action.callShutdown 1 true, Action.step 1, Action.step 1]).map
      (fun r => (r.1.workMutex,
        (perform r.1 (Action.step 1)).map (fun x => (x.2, x.1.workMutex))))
      = some (some 1, some (Label.call 1 Site.shutdown 7 0, some 1)) := by
  decide

/-- C10, amended: in every run that starts with no thread inside a critical section,
whenever a thread invokes a job callable the invocation leaves `workMutex` as it is, and
(a) if the invocation is the worker loop's, the invoking thread does not hold `workMutex`;
(b) if the invocation is made by `shutdown(true)`, the invoking thread holds `workMutex`. -/
theorem callable_invocation_and_workMutex (σ0 σ σ' : Sys) (acts : List Action)
    (ls : List Label) (a : Action) (t f args : Nat) (site : Site)
    (hm : σ0.workMutex = none) (hpc : ∀ u, holdsLock (σ0.pc u) = false)
    (hexec : exec σ0 acts = some (σ, ls))
    (hstep : perform σ a = some (σ', Label.call t site f args)) :
    σ'.workMutex = σ.workMutex ∧
    (site = Site.worker → σ.workMutex ≠ some t ∧ σ'.workMutex ≠ some t) ∧
    (site = Site.shutdown → σ.workMutex = some t ∧ σ'.workMutex = some t) := by
  have hinv : LockInv σ :=
    LockInv_exec acts σ0 σ ls (LockInv_of_quiescent σ0 hm hpc) hexec
  obtain ⟨-, hkeep, hsite⟩ := call_step hstep
  refine ⟨hkeep, ?_, ?_⟩
  · intro hw
    rcases hsite with ⟨-, hrun⟩ | ⟨hs, -⟩
    · have hno : σ.workMutex ≠ some t := by
        intro hown
        have := (hinv t).mp hown
        rw [hrun] at this
        cases this
      exact ⟨hno, by rw [hkeep]; exact hno⟩
    · rw [hw] at hs; cases hs
  · intro hsd
    rcases hsite with ⟨hs, -⟩ | ⟨-, hrun⟩
    · rw [hsd] at hs; cases hs
    · have hown : σ.workMutex = some t := (hinv t).mpr (by rw [hrun]; rfl)
      exact ⟨hown, by rw [hkeep]; exact hown⟩

theorem callable_invocation_and_workMutex_witness :
    (stateAfter (Sys.start 1 0)
      [Action.callAddJob 1 ⟨some 7, 0⟩, Action.step 1, Action.step 1,
       Action.step 0, Action.step 0]).workMutex ≠ some 0 ∧
    (stateAfter (Sys.start 1 0)
      [Action.callAddJob 1 ⟨some 7, 0⟩, Action.step 1, Action.step 1,
       Action.callShutdown 1 true, Action.step 1, Action.step 1]).workMutex = some 1 :=
  ⟨((callable_invocation_and_workMutex (Sys.start 1 0)
      (stateAfter (Sys.start 1 0)
        [Action.callAddJob 1 ⟨some 7, 0⟩, Action.step 1, Action.step 1,
         Action.step 0, Action.step 0])
      ((stateAfter (Sys.start 1 0)
        [Action.callAddJob 1 ⟨some 7, 0⟩, Action.step 1, Action.step 1,
         Action.step 0, Action.step 0]).goto 0 Pc.wRelock)
      [Action.callAddJob 1 ⟨some 7, 0⟩, Action.step 1, Action.step 1,
       Action.step 0, Action.step 0]
      [Label.tau, Label.tau, Label.addJobReturned 1 ⟨some 7, 0⟩ true, Label.tau,
       Label.dequeued 0 ⟨some 7, 0⟩]
      (Action.step 0) 0 7 0 Site.worker
      rfl (start_quiescent 1 0).2 rfl rfl).2.1 rfl).1,
   ((callable_invocation_and_workMutex (Sys.start 1 0)
      (stateAfter (Sys.start 1 0)
        [Action.callAddJob 1 ⟨some 7, 0⟩, Action.step 1, Action.step 1,
         Action.callShutdown 1 true, Action.step 1, Action.step 1])
      ((stateAfter (Sys.start 1 0)
        [Action.callAddJob 1 ⟨some 7, 0⟩, Action.step 1, Action.step 1,
         Action.callShutdown 1 true, Action.step 1, Action.step 1]).goto 1 (Pc.sPop true))
      [Action.callAddJob 1 ⟨some 7, 0⟩, Action.step 1, Action.step 1,
       Action.callShutdown 1 true, Action.step 1, Action.step 1]
      [Label.tau, Label.tau, Label.addJobReturned 1 ⟨some 7, 0⟩ true, Label.tau,
       Label.tau, Label.tau]
      (Action.step 1) 1 7 0 Site.shutdown
      rfl (start_quiescent 1 0).2 rfl rfl).2.2 rfl).1⟩

theorem exec_cons_of_perform {σ σ1 σ2 : Sys} {a : Action} {l : Label} {rest : List Action}
    {ls : List Label} (hp : perform σ a = some (σ1, l)) (he : exec σ1 rest = some (σ2, ls)) :
    exec σ (a :: rest) = some (σ2, l :: ls) := by
  simp only [exec, hp, he]

theorem shutdownLoop_snd_calls (fin : Bool) (q : List job) :
    callsOf (shutdownLoop fin q).2 = if fin = true then q.flatMap runJob else [] := by
  cases fin
  · simp only [shutdownLoop_false, callsOf, jobsRun_pops]
    rfl
  · simp only [shutdownLoop_true, callsOf, jobsRun_run_pop, if_true]

theorem callsIn_runLabel (t : Nat) (site : Site) (j : job) (ls : List Label) :
    callsIn (runLabel t site j :: ls) = (runJob j).map (fun c => (t, site, c)) ++ callsIn ls := by
  rcases j with ⟨func, args⟩
  cases func <;> rfl

/-- The loop of `shutdown` in the system of threads: from the loop test with the mutex held,
thread `t` alone empties the queue, sets the stop flag and unlocks; it makes the calls of
`runJob` for each queued job in queue order when `fin` is true and none otherwise. -/
theorem shutdown_loop_steps (t : Nat) (fin : Bool) :
    ∀ (q : List job) (σ : Sys), σ.pool.jobQueue = q → σ.pc t = Pc.sLoop fin →
      ∃ ls, exec σ (shutdownLoopSchedule t fin q)
          = some (⟨{ σ.pool with jobQueue := [], stop := true }, none,
                    Function.update σ.pc t Pc.idle⟩, ls) ∧
        callsIn ls = (if fin = true then q.flatMap runJob else []).map
          (fun c => (t, Site.shutdown, c))
  | [], σ, hq, hpc => by
    refine ⟨[Label.tau], ?_, ?_⟩
    · have hp : perform σ (Action.step t)
          = some (⟨{ σ.pool with jobQueue := [], stop := true }, none,
                    Function.update σ.pc t Pc.idle⟩, Label.tau) := by
        simp only [perform, next, hpc, hq, Sys.release]
      exact exec_cons_of_perform hp rfl
    · split_ifs <;> rfl
  | j :: rest, σ, hq, hpc => by
    cases fin with
    | true =>
      have hp1 : perform σ (Action.step t)
          = some (σ.goto t (Pc.sRun j), Label.tau) := by
        simp only [perform, next, hpc, hq, if_true]
      have hp2 : perform (σ.goto t (Pc.sRun j)) (Action.step t)
          = some ((σ.goto t (Pc.sRun j)).goto t (Pc.sPop true),
                  runLabel t Site.shutdown j) := by
        simp only [perform, next, Sys.goto, Function.update_same]
      have hp3 : perform ((σ.goto t (Pc.sRun j)).goto t (Pc.sPop true)) (Action.step t)
          = some (⟨{ σ.pool with jobQueue := rest }, σ.workMutex,
                    Function.update σ.pc t (Pc.sLoop true)⟩, Label.tau) := by
        simp only [perform, next, Sys.goto, Function.update_same, Function.update_idem, hq,
          List.tail_cons]
      obtain ⟨ls, he, hc⟩ := shutdown_loop_steps t true rest
        ⟨{ σ.pool with jobQueue := rest }, σ.workMutex, Function.update σ.pc t (Pc.sLoop true)⟩
        rfl (by simp only [Function.update_same])
      refine ⟨Label.tau :: runLabel t Site.shutdown j :: Label.tau :: ls, ?_, ?_⟩
      · have he' := exec_cons_of_perform hp1
          (exec_cons_of_perform hp2 (exec_cons_of_perform hp3 he))
        simp only [Function.update_idem] at he'
        simpa only [shutdownLoopSchedule, if_true] using he'
      · simp only [if_true] at hc ⊢
        show callsIn (runLabel t Site.shutdown j :: Label.tau :: ls) = _
        rw [callsIn_runLabel]
        show _ ++ callsIn ls = _
        rw [hc, List.flatMap_cons, List.map_append]
    | false =>
      have hp1 : perform σ (Action.step t)
          = some (σ.goto t (Pc.sPop false), Label.tau) := by
        simp [perform, next, hpc, hq]
      have hp3 : perform (σ.goto t (Pc.sPop false)) (Action.step t)
          = some (⟨{ σ.pool with jobQueue := rest }, σ.workMutex,
                    Function.update σ.pc t (Pc.sLoop false)⟩, Label.tau) := by
        simp only [perform, next, Sys.goto, Function.update_same, Function.update_idem, hq,
          List.tail_cons]
      obtain ⟨ls, he, hc⟩ := shutdown_loop_steps t false rest
        ⟨{ σ.pool with jobQueue := rest }, σ.workMutex, Function.update σ.pc t (Pc.sLoop false)⟩
        rfl (by simp only [Function.update_same])
      refine ⟨Label.tau :: Label.tau :: ls, ?_, ?_⟩
      · have he' := exec_cons_of_perform hp1 (exec_cons_of_perform hp3 he)
        simp only [Function.update_idem] at he'
        simpa [shutdownLoopSchedule] using he'
      · simpa [callsIn] using hc

/-- The sequential `shutdown` is what a thread does in the system of threads: an idle thread
`t` that calls `shutdown(fin)` while the mutex is free and is not interrupted ends outside
the pool's code with the mutex free and the pool as `shutdown` gives it, and the calls made
are those of `shutdown`, all made by `t`. -/
theorem shutdown_thread_run (σ : Sys) (t : Nat) (fin : Bool) (hidle : σ.pc t = Pc.idle)
    (hfree : σ.workMutex = none) :
    ∃ σ' ls, exec σ (shutdownSchedule t fin σ.pool.jobQueue) = some (σ', ls) ∧
      σ'.pool = (shutdown σ.pool fin).1 ∧ σ'.workMutex = none ∧ σ'.pc = σ.pc ∧
      callsIn ls = (callsOf (shutdown σ.pool fin).2).map (fun c => (t, Site.shutdown, c)) := by
  have hp1 : perform σ (Action.callShutdown t fin) = some (σ.goto t (Pc.sLock fin), Label.tau) := by
    simp only [perform, Sys.enter, hidle, if_true]
  have hp2 : perform (σ.goto t (Pc.sLock fin)) (Action.step t)
      = some (⟨σ.pool, some t, Function.update σ.pc t (Pc.sLoop fin)⟩, Label.tau) := by
    simp only [perform, next, Sys.goto, Function.update_same, Sys.acquire, hfree,
      Function.update_idem]
  obtain ⟨ls, he, hc⟩ := shutdown_loop_steps t fin σ.pool.jobQueue
    ⟨σ.pool, some t, Function.update σ.pc t (Pc.sLoop fin)⟩ rfl
    (by simp only [Function.update_same])
  have he' := exec_cons_of_perform hp1 (exec_cons_of_perform hp2 he)
  refine ⟨_, _, he', ?_, rfl, ?_, ?_⟩
  · cases fin
    · simp only [shutdown, shutdownLoop_false]
    · simp only [shutdown, shutdownLoop_true]
  · simp only [Function.update_idem]
    rw [← hidle, Function.update_eq_self]
  · show callsIn ls = _
    rw [hc]
    have : callsOf (shutdown σ.pool fin).2 = callsOf (shutdownLoop fin σ.pool.jobQueue).2 := by
      simp only [shutdown, callsOf]
      congr 1
      show jobsRun ((shutdownLoop fin σ.pool.jobQueue).2
        ++ [Event.setStop, Event.notify_all, Event.unlock]) = _
      rw [jobsRun_append]
      simp only [jobsRun, List.append_nil]
    rw [this, shutdownLoop_snd_calls]

/-- C8: for a pool whose queue is `q`, `shutdown(true)` runs exactly the jobs of `q`, each
once and in queue order - its events are: lock, then for each job of `q` in order run it and
pop it, then set the stop flag, notify, unlock - so every job is run before the stop flag is
set; `shutdown(false)` runs no job; in both cases the queue is empty and the stop flag is
set afterwards, and no other field changes. In the system of threads the calls are made by
the thread that called `shutdown`, which ends with the pool as the sequential `shutdown`
gives it. -/
theorem shutdown_runs_queue (p : State) :
    (shutdown p true).2
      = Event.lock :: (p.jobQueue.flatMap (fun j => [Event.run j, Event.pop])
          ++ [Event.setStop, Event.notify_all, Event.unlock]) ∧
    jobsRun (shutdown p true).2 = p.jobQueue ∧
    jobsRun (beforeStop (shutdown p true).2) = p.jobQueue ∧
    callsOf (shutdown p true).2 = p.jobQueue.flatMap runJob ∧
    jobsRun (shutdown p false).2 = [] ∧
    callsOf (shutdown p false).2 = [] ∧
    (∀ b, (shutdown p b).1 = { p with jobQueue := [], stop := true }) ∧
    (∀ (σ : Sys) (t : Nat) (b : Bool), σ.pool = p → σ.pc t = Pc.idle → σ.workMutex = none →
      ∃ σ' ls, exec σ (shutdownSchedule t b p.jobQueue) = some (σ', ls) ∧
        σ'.pool = (shutdown p b).1 ∧ σ'.workMutex = none ∧ σ'.pc = σ.pc ∧
        callsIn ls = (callsOf (shutdown p b).2).map (fun c => (t, Site.shutdown, c))) := by
  obtain ⟨h1, h2, h3, h4, -, h6, h7, h8⟩ := shutdown_trace p
  refine ⟨h1, h2, h3, h4, h6, h7, h8, ?_⟩
  intro σ t b hpool hidle hfree
  subst hpool
  exact shutdown_thread_run σ t b hidle hfree

theorem shutdown_runs_queue_witness :
    jobsRun (shutdown ⟨[⟨some 1, 0⟩, ⟨some 2, 7⟩], false, 0, 1, 0⟩ true).2
      = [⟨some 1, 0⟩, ⟨some 2, 7⟩] ∧
    ∃ σ' ls,
      exec ⟨⟨[⟨some 1, 0⟩, ⟨some 2, 7⟩], false, 0, 1, 0⟩, none, fun _ => Pc.idle⟩
        (shutdownSchedule 3 true [⟨some 1, 0⟩, ⟨some 2, 7⟩]) = some (σ', ls) ∧
      σ'.pool = ⟨[], true, 0, 1, 0⟩ ∧
      callsIn ls = [(3, Site.shutdown, (1, 0)), (3, Site.shutdown, (2, 7))] := by
  have h := shutdown_runs_queue ⟨[⟨some 1, 0⟩, ⟨some 2, 7⟩], false, 0, 1, 0⟩
  obtain ⟨σ', ls, he, hpool, -, -, hcalls⟩ := h.2.2.2.2.2.2.2
    ⟨⟨[⟨some 1, 0⟩, ⟨some 2, 7⟩], false, 0, 1, 0⟩, none, fun _ => Pc.idle⟩ 3 true rfl rfl rfl
  exact ⟨h.2.1, σ', ls, he, hpool.trans (by decide), hcalls.trans (by decide)⟩

/-! ## The history invariant (no `shutdown`) -/

theorem acceptedJobs_snoc (hist : List Label) (l : Label) :
    acceptedJobs (hist ++ [l]) = acceptedJobs hist ++ acceptedJobs [l] := by
  simp only [acceptedJobs, List.filterMap_append]

theorem dequeuedJobs_snoc (hist : List Label) (l : Label) :
    dequeuedJobs (hist ++ [l]) = dequeuedJobs hist ++ dequeuedJobs [l] := by
  simp only [dequeuedJobs, List.filterMap_append]

theorem finishedCount_snoc (hist : List Label) (l : Label) :
    finishedCount (hist ++ [l]) = finishedCount hist + finishedCount [l] := by
  simp only [finishedCount, List.filter_append, List.length_append]

theorem busyWorkers_snoc (hist : List Label) (l : Label) :
    busyWorkers (hist ++ [l]) = busyStep (busyWorkers hist) l := by
  simp only [busyWorkers, List.foldl_append, List.foldl_cons, List.foldl_nil]

/-- A step that leaves the queue and `workingCount` alone, whose label records nothing about
jobs, and that moves a thread neither into the span between dequeue and finish nor into
`shutdown`. -/
theorem FifoInv_silent {σ σ' : Sys} {hist : List Label} {t : Nat} {pc : Pc} {l : Label}
    (hinv : FifoInv σ hist)
    (hq : σ'.pool.jobQueue = σ.pool.jobQueue)
    (hw : σ'.pool.workingCount = σ.pool.workingCount)
    (hpcs : σ'.pc = Function.update σ.pc t pc)
    (hfl : inFlightPc pc = true → inFlightPc (σ.pc t) = true)
    (hsd : shutdownPc pc = false)
    (ha : l.acceptedJob = none) (hd : l.dequeuedJob = none) (hf : l.isFinished = false)
    (hb : ∀ ws, busyStep ws l = ws) : FifoInv σ' (hist ++ [l]) := by
  have h1 : acceptedJobs (hist ++ [l]) = acceptedJobs hist := by
    rw [acceptedJobs_snoc]
    simp [acceptedJobs, ha]
  have h2 : dequeuedJobs (hist ++ [l]) = dequeuedJobs hist := by
    rw [dequeuedJobs_snoc]
    simp [dequeuedJobs, hd]
  have h3 : finishedCount (hist ++ [l]) = finishedCount hist := by
    rw [finishedCount_snoc]
    simp [finishedCount, hf]
  have h4 : busyWorkers (hist ++ [l]) = busyWorkers hist := by
    rw [busyWorkers_snoc, hb]
  refine ⟨?_, ?_, ?_, ?_, ?_⟩
  · rw [h1, h2, hq]; exact hinv.queue
  · rw [h4, hw]; exact hinv.working
  · rw [h2, h3, h4]; exact hinv.count
  · intro u hu
    rw [h4]
    rw [hpcs] at hu
    by_cases hut : u = t
    · subst hut
      rw [Function.update_same] at hu
      exact hinv.busy u (hfl hu)
    · rw [Function.update_noteq hut] at hu
      exact hinv.busy u hu
  · intro u
    rw [hpcs]
    by_cases hut : u = t
    · subst hut
      rw [Function.update_same]
      exact hsd
    · rw [Function.update_noteq hut]
      exact hinv.noShutdown u

theorem FifoInv_acquire {σ σ' : Sys} {hist : List Label} {t : Nat} {pc : Pc} {l : Label}
    (hinv : FifoInv σ hist) (h : σ.acquire t pc = some (σ', l))
    (hfl : inFlightPc pc = true → inFlightPc (σ.pc t) = true)
    (hsd : shutdownPc pc = false) : FifoInv σ' (hist ++ [l]) := by
  unfold Sys.acquire at h
  split at h
  · simp only [Option.some.injEq, Prod.mk.injEq] at h
    obtain ⟨rfl, rfl⟩ := h
    exact FifoInv_silent hinv rfl rfl rfl hfl hsd rfl rfl rfl (fun _ => rfl)
  · cases h

theorem FifoInv_enter {σ σ' : Sys} {hist : List Label} {t : Nat} {pc : Pc} {l : Label}
    (hinv : FifoInv σ hist) (h : σ.enter t pc = some (σ', l))
    (hfl : inFlightPc pc = false) (hsd : shutdownPc pc = false) :
    FifoInv σ' (hist ++ [l]) := by
  unfold Sys.enter at h
  split_ifs at h
  simp only [Option.some.injEq, Prod.mk.injEq] at h
  obtain ⟨rfl, rfl⟩ := h
  exact FifoInv_silent hinv rfl rfl rfl (fun hh => by rw [hfl] at hh; cases hh) hsd
    rfl rfl rfl (fun _ => rfl)

theorem runLabel_records_nothing (t : Nat) (site : Site) (j : job) :
    (runLabel t site j).acceptedJob = none ∧ (runLabel t site j).dequeuedJob = none ∧
    (runLabel t site j).isFinished = false ∧ ∀ ws, busyStep ws (runLabel t site j) = ws := by
  rcases j with ⟨func, args⟩
  cases func
  · exact ⟨rfl, rfl, rfl, fun _ => rfl⟩
  · exact ⟨rfl, rfl, rfl, fun _ => rfl⟩

/-- The dequeue step of a worker (lines 97-100). -/
theorem FifoInv_dequeue {σ : Sys} {hist : List Label} {t : Nat} {currentJob : job}
    {pool : State} (hinv : FifoInv σ hist)
    (hdq : dequeue σ.pool = some (currentJob, pool)) :
    FifoInv (σ.release t pool (Pc.wRun currentJob)) (hist ++ [Label.dequeued t currentJob]) := by
  have hpool : σ.pool.jobQueue = currentJob :: pool.jobQueue ∧
      pool.workingCount = σ.pool.workingCount + 1 := by
    unfold dequeue at hdq
    split at hdq
    · cases hdq
    · rename_i j rest hq
      simp only [Option.some.injEq, Prod.mk.injEq] at hdq
      obtain ⟨rfl, rfl⟩ := hdq
      exact ⟨hq, rfl⟩
  have h1 : acceptedJobs (hist ++ [Label.dequeued t currentJob]) = acceptedJobs hist := by
    rw [acceptedJobs_snoc]
    simp [acceptedJobs, Label.acceptedJob]
  have h2 : dequeuedJobs (hist ++ [Label.dequeued t currentJob])
      = dequeuedJobs hist ++ [currentJob] := by
    rw [dequeuedJobs_snoc]
    simp [dequeuedJobs, Label.dequeuedJob]
  have h3 : finishedCount (hist ++ [Label.dequeued t currentJob]) = finishedCount hist := by
    rw [finishedCount_snoc]
    simp [finishedCount, Label.isFinished]
  have h4 : busyWorkers (hist ++ [Label.dequeued t currentJob]) = t :: busyWorkers hist := by
    rw [busyWorkers_snoc]
    rfl
  refine ⟨?_, ?_, ?_, ?_, ?_⟩
  · rw [h1, h2, ← hinv.queue, hpool.1]
    simp [Sys.release]
  · rw [h4]
    simp only [Sys.release, List.length_cons, hpool.2, hinv.working]
  · rw [h2, h3, h4]
    have := hinv.count
    simp only [List.length_cons, List.length_append, List.length_nil]
    omega
  · intro u hu
    rw [h4]
    by_cases hut : u = t
    · subst hut
      exact List.mem_cons_self _ _
    · simp only [Sys.release, Function.update_noteq hut] at hu
      exact List.mem_cons_of_mem _ (hinv.busy u hu)
  · intro u
    by_cases hut : u = t
    · subst hut
      simp only [Sys.release, Function.update_same]
      rfl
    · simp only [Sys.release, Function.update_noteq hut]
      exact hinv.noShutdown u

/-- The finish step of a worker (lines 107-113). -/
theorem FifoInv_finish {σ : Sys} {hist : List Label} {t : Nat} (hinv : FifoInv σ hist)
    (hpc : σ.pc t = Pc.wFinish) :
    FifoInv (σ.release t { σ.pool with workingCount := σ.pool.workingCount - 1 } Pc.wLock)
      (hist ++ [Label.finished t]) := by
  have hmem : t ∈ busyWorkers hist := hinv.busy t (by rw [hpc]; rfl)
  have hpos : 0 < (busyWorkers hist).length := List.length_pos_of_mem hmem
  have h1 : acceptedJobs (hist ++ [Label.finished t]) = acceptedJobs hist := by
    rw [acceptedJobs_snoc]
    simp [acceptedJobs, Label.acceptedJob]
  have h2 : dequeuedJobs (hist ++ [Label.finished t]) = dequeuedJobs hist := by
    rw [dequeuedJobs_snoc]
    simp [dequeuedJobs, Label.dequeuedJob]
  have h3 : finishedCount (hist ++ [Label.finished t]) = finishedCount hist + 1 := by
    rw [finishedCount_snoc]
    simp [finishedCount, Label.isFinished]
  have h4 : busyWorkers (hist ++ [Label.finished t]) = (busyWorkers hist).erase t := by
    rw [busyWorkers_snoc]
    rfl
  have hlen : ((busyWorkers hist).erase t).length = (busyWorkers hist).length - 1 :=
    List.length_erase_of_mem hmem
  refine ⟨?_, ?_, ?_, ?_, ?_⟩
  · rw [h1, h2]
    exact hinv.queue
  · rw [h4, hlen]
    simp only [Sys.release, hinv.working]
  · rw [h2, h3, h4, hlen]
    have := hinv.count
    omega
  · intro u hu
    rw [h4]
    by_cases hut : u = t
    · subst hut
      simp only [Sys.release, Function.update_same] at hu
      cases hu
    · simp only [Sys.release, Function.update_noteq hut] at hu
      exact (List.mem_erase_of_ne hut).mpr (hinv.busy u hu)
  · intro u
    by_cases hut : u = t
    · subst hut
      simp only [Sys.release, Function.update_same]
      rfl
    · simp only [Sys.release, Function.update_noteq hut]
      exact hinv.noShutdown u

/-- The critical section of `addJob` (lines 53-62). -/
theorem FifoInv_addJob {σ : Sys} {hist : List Label} {t : Nat} {newJob : job}
    (hinv : FifoInv σ hist) :
    FifoInv (σ.release t (addJob σ.pool newJob).2 Pc.idle)
      (hist ++ [Label.addJobReturned t newJob (addJob σ.pool newJob).1]) := by
  have h2 : dequeuedJobs (hist ++ [Label.addJobReturned t newJob (addJob σ.pool newJob).1])
      = dequeuedJobs hist := by
    rw [dequeuedJobs_snoc]
    simp [dequeuedJobs, Label.dequeuedJob]
  have h3 : finishedCount (hist ++ [Label.addJobReturned t newJob (addJob σ.pool newJob).1])
      = finishedCount hist := by
    rw [finishedCount_snoc]
    simp [finishedCount, Label.isFinished]
  have h4 : busyWorkers (hist ++ [Label.addJobReturned t newJob (addJob σ.pool newJob).1])
      = busyWorkers hist := by
    rw [busyWorkers_snoc]
    rfl
  have hwc : (addJob σ.pool newJob).2.workingCount = σ.pool.workingCount := by
    unfold addJob
    split_ifs <;> rfl
  refine ⟨?_, ?_, ?_, ?_, ?_⟩
  · rw [h2, acceptedJobs_snoc, ← hinv.queue]
    unfold addJob
    split_ifs
    · simp [Sys.release, acceptedJobs, Label.acceptedJob]
    · simp [Sys.release, acceptedJobs, Label.acceptedJob]
  · rw [h4]
    simp only [Sys.release, hwc, hinv.working]
  · rw [h2, h3, h4]
    exact hinv.count
  · intro u hu
    rw [h4]
    by_cases hut : u = t
    · subst hut
      simp only [Sys.release, Function.update_same] at hu
      cases hu
    · simp only [Sys.release, Function.update_noteq hut] at hu
      exact hinv.busy u hu
  · intro u
    by_cases hut : u = t
    · subst hut
      simp only [Sys.release, Function.update_same]
      rfl
    · simp only [Sys.release, Function.update_noteq hut]
      exact hinv.noShutdown u

theorem FifoInv_next {σ σ' : Sys} {hist : List Label} {t : Nat} {l : Label}
    (hinv : FifoInv σ hist) (h : next σ t = some (σ', l)) : FifoInv σ' (hist ++ [l]) := by
  have hno := hinv.noShutdown t
  unfold next at h
  split at h
  · cases h
  · exact FifoInv_acquire hinv h (fun hh => by cases hh) rfl
  · split_ifs at h
    · cases h
      exact FifoInv_silent hinv rfl rfl rfl (fun hh => by cases hh) rfl rfl rfl rfl
        (fun _ => rfl)
    · cases h
      exact FifoInv_silent hinv rfl rfl rfl (fun hh => by cases hh) rfl rfl rfl rfl
        (fun _ => rfl)
    · split at h
      · rename_i currentJob pool hdq
        cases h
        exact FifoInv_dequeue hinv hdq
      · cases h
  · exact FifoInv_acquire hinv h (fun hh => by cases hh) rfl
  · rename_i j hpc
    cases h
    obtain ⟨ha, hd, hf, hb⟩ := runLabel_records_nothing t Site.worker j
    exact FifoInv_silent hinv rfl rfl rfl (fun _ => by rw [hpc]; rfl) rfl ha hd hf hb
  · rename_i hpc
    exact FifoInv_acquire hinv h (fun _ => by rw [hpc]; rfl) rfl
  · rename_i hpc
    cases h
    exact FifoInv_finish hinv hpc
  · cases h
  · rename_i fin hpc
    rw [hpc] at hno
    cases hno
  · rename_i fin hpc
    rw [hpc] at hno
    cases hno
  · rename_i j hpc
    rw [hpc] at hno
    cases hno
  · rename_i fin hpc
    rw [hpc] at hno
    cases hno
  · exact FifoInv_acquire hinv h (fun hh => by cases hh) rfl
  · cases h
    exact FifoInv_addJob hinv
  · exact FifoInv_acquire hinv h (fun hh => by cases hh) rfl
  · split_ifs at h
    · cases h
      exact FifoInv_silent hinv rfl rfl rfl (fun hh => by cases hh) rfl rfl rfl rfl
        (fun _ => rfl)
    · cases h
      exact FifoInv_silent hinv rfl rfl rfl (fun hh => by cases hh) rfl rfl rfl rfl
        (fun _ => rfl)
  · exact FifoInv_acquire hinv h (fun hh => by cases hh) rfl

theorem FifoInv_perform {σ σ' : Sys} {hist : List Label} {a : Action} {l : Label}
    (hinv : FifoInv σ hist) (ha : a.isShutdownCall = false)
    (h : perform σ a = some (σ', l)) : FifoInv σ' (hist ++ [l]) := by
  cases a with
  | step t => exact FifoInv_next hinv h
  | callAddJob t j => exact FifoInv_enter hinv h rfl rfl
  | callShutdown t fin => cases ha
  | callWaitForAllJobsDone t => exact FifoInv_enter hinv h rfl rfl

theorem FifoInv_exec :
    ∀ (acts : List Action) (σ σ' : Sys) (hist ls : List Label), FifoInv σ hist →
      (∀ a ∈ acts, a.isShutdownCall = false) → exec σ acts = some (σ', ls) →
      FifoInv σ' (hist ++ ls)
  | [], σ, σ', hist, ls, hinv, _, h => by
    simp only [exec, Option.some.injEq, Prod.mk.injEq] at h
    rw [← h.1, ← h.2, List.append_nil]
    exact hinv
  | a :: rest, σ, σ', hist, ls, hinv, hno, h => by
    unfold exec at h
    cases hp : perform σ a with
    | none => rw [hp] at h; cases h
    | some r =>
      obtain ⟨σ1, l⟩ := r
      rw [hp] at h
      simp only at h
      cases he : exec σ1 rest with
      | none => rw [he] at h; cases h
      | some r2 =>
        obtain ⟨σ2, ls2⟩ := r2
        rw [he] at h
        simp only [Option.some.injEq, Prod.mk.injEq] at h
        rw [← h.1, ← h.2]
        have hstep := FifoInv_perform hinv (hno a (List.mem_cons_self _ _)) hp
        have := FifoInv_exec rest σ1 σ2 (hist ++ [l]) ls2 hstep
          (fun b hb => hno b (List.mem_cons_of_mem _ hb)) he
        simpa only [List.append_assoc, List.singleton_append] using this

theorem FifoInv_initial (σ : Sys) (hq : σ.pool.jobQueue = [])
    (hw : σ.pool.workingCount = 0) (hpc : ∀ t, σ.pc t = Pc.idle ∨ σ.pc t = Pc.wLock) :
    FifoInv σ [] := by
  refine ⟨?_, ?_, rfl, ?_, ?_⟩
  · rw [hq]; rfl
  · rw [hw]; rfl
  · intro t ht
    rcases hpc t with h | h <;> rw [h] at ht <;> cases ht
  · intro t
    rcases hpc t with h | h <;> rw [h] <;> rfl

theorem start_initial (threadCount maxJobCount : Nat) :
    (Sys.start threadCount maxJobCount).pool.jobQueue = [] ∧
    (Sys.start threadCount maxJobCount).pool.workingCount = 0 ∧
    ∀ t, (Sys.start threadCount maxJobCount).pc t = Pc.idle ∨
      (Sys.start threadCount maxJobCount).pc t = Pc.wLock := by
  refine ⟨?_, ?_, ?_⟩
  · simp only [Sys.start, init]
    split_ifs <;> rfl
  · simp only [Sys.start, init]
    split_ifs <;> rfl
  · intro t
    simp only [Sys.start]
    split_ifs
    · exact Or.inr rfl
    · exact Or.inl rfl

/-- C11: take any run of the pool without a call of `shutdown`, started with an empty
queue, `workingCount = 0` and every thread either outside the pool or a worker at the top
of its loop. In the state reached, the jobs dequeued by workers so far followed by the
current queue are the jobs accepted by `addJob`, in acceptance order. Hence the jobs
dequeued are the first accepted ones in the same order (FIFO, none dequeued twice), the
accepted jobs not yet dequeued are exactly the queue (none lost), and `workingCount` is the
number of jobs dequeued minus the number finished. -/
theorem fifo_history (σ0 σ : Sys) (acts : List Action) (ls : List Label)
    (hq : σ0.pool.jobQueue = []) (hw : σ0.pool.workingCount = 0)
    (hpc : ∀ t, σ0.pc t = Pc.idle ∨ σ0.pc t = Pc.wLock)
    (hno : ∀ a ∈ acts, a.isShutdownCall = false)
    (hexec : exec σ0 acts = some (σ, ls)) :
    dequeuedJobs ls ++ σ.pool.jobQueue = acceptedJobs ls ∧
    dequeuedJobs ls = (acceptedJobs ls).take (dequeuedJobs ls).length ∧
    σ.pool.jobQueue = (acceptedJobs ls).drop (dequeuedJobs ls).length ∧
    (acceptedJobs ls).length = (dequeuedJobs ls).length + σ.pool.jobQueue.length ∧
    finishedCount ls ≤ (dequeuedJobs ls).length ∧
    σ.pool.workingCount = (dequeuedJobs ls).length - finishedCount ls := by
  have hinv := FifoInv_exec acts σ0 σ [] ls (FifoInv_initial σ0 hq hw hpc) hno hexec
  rw [List.nil_append] at hinv
  have hqueue := hinv.queue
  have hcount := hinv.count
  have hwork := hinv.working
  refine ⟨hqueue, ?_, ?_, ?_, ?_, ?_⟩
  · rw [← hqueue, List.take_left']
    rfl
  · rw [← hqueue, List.drop_left']
    rfl
  · rw [← hqueue, List.length_append]
  · omega
  · omega

theorem fifo_history_witness :
    (Sys.start 2 0).pool.jobQueue = [] ∧
    acceptedJobs (labelsOf (Sys.start 2 0)
      [Action.callAddJob 2 ⟨some 1, 0⟩, Action.step 2, Action.step 2,
       Action.callAddJob 2 ⟨some 2, 0⟩, Action.step 2, Action.step 2,
       Action.step 0, Action.step 0, Action.step 0])
      = [⟨some 1, 0⟩, ⟨some 2, 0⟩] ∧
    dequeuedJobs (labelsOf (Sys.start 2 0)
      [Action.callAddJob 2 ⟨some 1, 0⟩, Action.step 2, Action.step 2,
       Action.callAddJob 2 ⟨some 2, 0⟩, Action.step 2, Action.step 2,
       Action.step 0, Action.step 0, Action.step 0])
      ++ (stateAfter (Sys.start 2 0)
      [Action.callAddJob 2 ⟨some 1, 0⟩, Action.step 2, Action.step 2,
       Action.callAddJob 2 ⟨some 2, 0⟩, Action.step 2, Action.step 2,
       Action.step 0, Action.step 0, Action.step 0]).pool.jobQueue
      = [⟨some 1, 0⟩, ⟨some 2, 0⟩] ∧
    (stateAfter (Sys.start 2 0)
      [Action.callAddJob 2 ⟨some 1, 0⟩, Action.step 2, Action.step 2,
       Action.callAddJob 2 ⟨some 2, 0⟩, Action.step 2, Action.step 2,
       Action.step 0, Action.step 0, Action.step 0]).pool.workingCount = 1 :=
  have h := fifo_history (Sys.start 2 0)
    (stateAfter (Sys.start 2 0)
      [Action.callAddJob 2 ⟨some 1, 0⟩, Action.step 2, Action.step 2,
       Action.callAddJob 2 ⟨some 2, 0⟩, Action.step 2, Action.step 2,
       Action.step 0, Action.step 0, Action.step 0])
    [Action.callAddJob 2 ⟨some 1, 0⟩, Action.step 2, Action.step 2,
       Action.callAddJob 2 ⟨some 2, 0⟩, Action.step 2, Action.step 2,
       Action.step 0, Action.step 0, Action.step 0]
    (labelsOf (Sys.start 2 0)
      [Action.callAddJob 2 ⟨some 1, 0⟩, Action.step 2, Action.step 2,
       Action.callAddJob 2 ⟨some 2, 0⟩, Action.step 2, Action.step 2,
       Action.step 0, Action.step 0, Action.step 0])
    rfl rfl (start_initial 2 0).2.2 (by decide) rfl
  ⟨rfl, by decide, h.1.trans (by decide), h.2.2.2.2.2.trans (by decide)⟩

end ThreadPool
